import Mathlib

/-!
# Verification of the Twine compiler front end

A shallow embedding in Lean 4 of the parts of the Twine compiler
(lexer, recursive-descent parser, LLVM-IR emitter) that the
specification's claims are about, together with proofs or refutations
of those claims.

Conventions:
* the C++ lexer keeps the source string as an immutable member and a
  mutable cursor `current` plus `line`/`column`; here the source is a
  `List Char` parameter threaded through every function and the mutable
  part is a `LexPos` record;
* C++ `while` loops become fuel-indexed recursive functions; every
  call site passes `s.length + 1` (or more) fuel, which is always
  sufficient because each loop iteration advances the cursor by at
  least one position of a source of length `s.length`;
* `std::cerr` diagnostics carry no semantic content for the claims and
  are dropped; thrown `std::runtime_error`s become `Except`/option
  error values.
-/

namespace Twine

/-- ASCII double quote, kept as a named constant. -/
def quoteD : Char := Char.ofNat 34

/-- ASCII single quote, kept as a named constant. -/
def quoteS : Char := Char.ofNat 39

/-- ASCII backslash. -/
def backslashChar : Char := Char.ofNat 92

/-- NUL, the value C++ `peek`/`advance` return at end of input. -/
def nulChar : Char := Char.ofNat 0

/-- Token kinds, from `TokenType` in `include/lexer.h`. -/
inductive TokenType where
  | NUMBER | STRING | IDENTIFIER
  | LET | VAR | CONST | FUNCTION | IF | ELSE | WHILE | FOR | RETURN
  | TRUE | FALSE | NULL_TOKEN
  | PLUS | MINUS | MULTIPLY | DIVIDE | MODULO
  | ASSIGN | EQUAL | NOT_EQUAL
  | LESS_THAN | GREATER_THAN | LESS_EQUAL | GREATER_EQUAL
  | LOGICAL_AND | LOGICAL_OR | LOGICAL_NOT
  | SEMICOLON | COMMA | DOT
  | LEFT_PAREN | RIGHT_PAREN | LEFT_BRACE | RIGHT_BRACE
  | LEFT_BRACKET | RIGHT_BRACKET
  | END_OF_FILE | UNKNOWN
deriving DecidableEq, Repr

/-- A token, from `struct Token` in `include/lexer.h`; the `value`
field is the lexeme (decoded for strings). -/
structure Token where
  type : TokenType
  value : List Char
  line : Nat
  column : Nat
deriving DecidableEq, Repr

/-- The mutable lexer cursor (`current`, `line`, `column` members of
`Lexer`); the immutable `source` member is passed separately. -/
structure LexPos where
  current : Nat
  line : Nat
  column : Nat
deriving DecidableEq, Repr

/-- Lexer state right after the constructor `Lexer::Lexer`. -/
def initLexPos : LexPos := ⟨0, 1, 1⟩

/-- `Lexer::isAtEnd`. -/
def lexAtEnd (s : List Char) (st : LexPos) : Bool :=
  decide (s.length ≤ st.current)

/-- `Lexer::peek`: character at `current + offset`, NUL past the end. -/
def lexPeek (s : List Char) (st : LexPos) (offset : Nat) : Char :=
  if s.length ≤ st.current + offset then nulChar
  else s.getD (st.current + offset) nulChar

/-- `Lexer::advance`: return the current character and step the cursor,
updating `line`/`column`; a no-op returning NUL at end of input. -/
def lexAdvance (s : List Char) (st : LexPos) : Char × LexPos :=
  if lexAtEnd s st then (nulChar, st)
  else if s.getD st.current nulChar = '\n' then
    (s.getD st.current nulChar, ⟨st.current + 1, st.line + 1, 1⟩)
  else
    (s.getD st.current nulChar, ⟨st.current + 1, st.line, st.column + 1⟩)

/-- `Lexer::isDigit`. -/
def isDigitC (c : Char) : Bool := decide ('0' ≤ c ∧ c ≤ '9')

/-- `Lexer::isAlpha`: letters, underscore and dollar. -/
def isAlphaC (c : Char) : Bool :=
  decide (('a' ≤ c ∧ c ≤ 'z') ∨ ('A' ≤ c ∧ c ≤ 'Z') ∨ c = '_' ∨ c = '$')

/-- `Lexer::isAlphaNumeric`. -/
def isAlphaNumericC (c : Char) : Bool := isAlphaC c || isDigitC c

/-- The whitespace set skipped by `Lexer::skipWhitespace`. -/
def isWsChar (c : Char) : Bool :=
  decide (c = ' ' ∨ c = '\t' ∨ c = '\r' ∨ c = '\n')

/-- `Lexer::skipWhitespace`, fuel-indexed. -/
def skipWhitespace (s : List Char) : Nat → LexPos → LexPos
  | 0, st => st
  | fuel + 1, st =>
    if isWsChar (lexPeek s st 0) then
      skipWhitespace s fuel (lexAdvance s st).2
    else st

/-- `Lexer::skipLineComment`: advance while not at a newline or EOF. -/
def skipLineComment (s : List Char) : Nat → LexPos → LexPos
  | 0, st => st
  | fuel + 1, st =>
    if lexPeek s st 0 ≠ '\n' ∧ ¬ lexAtEnd s st then
      skipLineComment s fuel (lexAdvance s st).2
    else st

/-- `Lexer::skipBlockComment`: advance to just past the next `*/`, or
stop at EOF (the unterminated-comment diagnostic is dropped). -/
def skipBlockComment (s : List Char) : Nat → LexPos → LexPos
  | 0, st => st
  | fuel + 1, st =>
    if lexAtEnd s st then st
    else if lexPeek s st 0 = '*' ∧ lexPeek s st 1 = '/' then
      (lexAdvance s (lexAdvance s st).2).2
    else skipBlockComment s fuel (lexAdvance s st).2

/-- The digit-consuming loop `while (isDigit(peek())) advance();`. -/
def skipDigits (s : List Char) : Nat → LexPos → LexPos
  | 0, st => st
  | fuel + 1, st =>
    if isDigitC (lexPeek s st 0) then skipDigits s fuel (lexAdvance s st).2
    else st

/-- The loop `while (isAlphaNumeric(peek())) advance();`. -/
def skipAlphaNum (s : List Char) : Nat → LexPos → LexPos
  | 0, st => st
  | fuel + 1, st =>
    if isAlphaNumericC (lexPeek s st 0) then skipAlphaNum s fuel (lexAdvance s st).2
    else st

/-- `std::string::substr(start, stop - start)` on a character list. -/
def extractChars (s : List Char) (start stop : Nat) : List Char :=
  (s.drop start).take (stop - start)

/-- `Lexer::scanNumber`: digits, optionally a dot followed by digits. -/
def scanNumber (s : List Char) (st : LexPos) : Token × LexPos :=
  let startLine := st.line
  let startColumn := st.column
  let start := st.current
  let st1 := (lexAdvance s st).2
  let st2 := skipDigits s (s.length + 1) st1
  let st3 :=
    if lexPeek s st2 0 = '.' ∧ isDigitC (lexPeek s st2 1) then
      skipDigits s (s.length + 1) (lexAdvance s st2).2
    else st2
  (⟨.NUMBER, extractChars s start st3.current, startLine, startColumn⟩, st3)

/-- The keyword table built by `Lexer::initKeywords`, as a lookup. -/
def keywordType (v : List Char) : TokenType :=
  if v = "let".toList then .LET
  else if v = "var".toList then .VAR
  else if v = "const".toList then .CONST
  else if v = "function".toList then .FUNCTION
  else if v = "if".toList then .IF
  else if v = "else".toList then .ELSE
  else if v = "while".toList then .WHILE
  else if v = "for".toList then .FOR
  else if v = "return".toList then .RETURN
  else if v = "true".toList then .TRUE
  else if v = "false".toList then .FALSE
  else if v = "null".toList then .NULL_TOKEN
  else .IDENTIFIER

/-- `Lexer::scanIdentifier`. -/
def scanIdentifier (s : List Char) (st : LexPos) : Token × LexPos :=
  let startLine := st.line
  let startColumn := st.column
  let start := st.current
  let st1 := (lexAdvance s st).2
  let st2 := skipAlphaNum s (s.length + 1) st1
  let value := extractChars s start st2.current
  (⟨keywordType value, value, startLine, startColumn⟩, st2)

/-- The escape decoding switch inside `Lexer::scanString`; `\\`, `\"`
and `\'` map to themselves, as does the default case. -/
def escapeChar (c : Char) : Char :=
  if c = 'n' then '\n'
  else if c = 't' then '\t'
  else if c = 'r' then '\r'
  else c

/-- The character-collecting loop of `Lexer::scanString`. -/
def scanStringLoop (s : List Char) (quote : Char) :
    Nat → LexPos → List Char × LexPos
  | 0, st => ([], st)
  | fuel + 1, st =>
    if lexPeek s st 0 ≠ quote ∧ ¬ lexAtEnd s st then
      if lexPeek s st 0 = backslashChar then
        let st1 := (lexAdvance s st).2
        let (next, st2) := lexAdvance s st1
        let (rest, st3) := scanStringLoop s quote fuel st2
        (escapeChar next :: rest, st3)
      else
        let (c, st1) := lexAdvance s st
        let (rest, st2) := scanStringLoop s quote fuel st1
        (c :: rest, st2)
    else ([], st)

/-- `Lexer::scanString`: on an unterminated string the diagnostic is
dropped and an `UNKNOWN` token with empty lexeme is produced, exactly
as in the source. -/
def scanString (s : List Char) (st : LexPos) : Token × LexPos :=
  let startLine := st.line
  let startColumn := st.column
  let quote := s.getD st.current nulChar
  let st1 := (lexAdvance s st).2
  let (value, st2) := scanStringLoop s quote (s.length + 1) st1
  if lexAtEnd s st2 then
    (⟨.UNKNOWN, [], startLine, startColumn⟩, st2)
  else
    (⟨.STRING, value, startLine, startColumn⟩, (lexAdvance s st2).2)

/-- The `current--; if (column > 1) column--;` backtracking done by
`Lexer::nextToken` before delegating to a scanner. -/
def backUp (st : LexPos) : LexPos :=
  ⟨st.current - 1, st.line, if 1 < st.column then st.column - 1 else st.column⟩

/-- `Lexer::nextToken`.  The fuel only bounds the self-recursion used
after skipping a comment; every caller passes at least `s.length + 1`,
which suffices because each recursive call consumes at least two
characters first. -/
def nextToken (s : List Char) : Nat → LexPos → Token × LexPos
  | 0, st => (⟨.UNKNOWN, [], st.line, st.column⟩, st)
  | fuel + 1, st0 =>
    let st := skipWhitespace s (s.length + 1) st0
    if lexAtEnd s st then (⟨.END_OF_FILE, [], st.line, st.column⟩, st)
    else
      let startLine := st.line
      let startColumn := st.column
      let (c, st1) := lexAdvance s st
      if isDigitC c then scanNumber s (backUp st1)
      else if isAlphaC c then scanIdentifier s (backUp st1)
      else if c = '=' then
        if lexPeek s st1 0 = '=' then
          (⟨.EQUAL, "==".toList, startLine, startColumn⟩, (lexAdvance s st1).2)
        else (⟨.ASSIGN, "=".toList, startLine, startColumn⟩, st1)
      else if c = '!' then
        if lexPeek s st1 0 = '=' then
          (⟨.NOT_EQUAL, "!=".toList, startLine, startColumn⟩, (lexAdvance s st1).2)
        else (⟨.LOGICAL_NOT, "!".toList, startLine, startColumn⟩, st1)
      else if c = '<' then
        if lexPeek s st1 0 = '=' then
          (⟨.LESS_EQUAL, "<=".toList, startLine, startColumn⟩, (lexAdvance s st1).2)
        else (⟨.LESS_THAN, "<".toList, startLine, startColumn⟩, st1)
      else if c = '>' then
        if lexPeek s st1 0 = '=' then
          (⟨.GREATER_EQUAL, ">=".toList, startLine, startColumn⟩, (lexAdvance s st1).2)
        else (⟨.GREATER_THAN, ">".toList, startLine, startColumn⟩, st1)
      else if c = '&' then
        if lexPeek s st1 0 = '&' then
          (⟨.LOGICAL_AND, "&&".toList, startLine, startColumn⟩, (lexAdvance s st1).2)
        else (⟨.UNKNOWN, [c], startLine, startColumn⟩, st1)
      else if c = '|' then
        if lexPeek s st1 0 = '|' then
          (⟨.LOGICAL_OR, "||".toList, startLine, startColumn⟩, (lexAdvance s st1).2)
        else (⟨.UNKNOWN, [c], startLine, startColumn⟩, st1)
      else if c = '/' then
        if lexPeek s st1 0 = '/' then
          nextToken s fuel (skipLineComment s (s.length + 1) st1)
        else if lexPeek s st1 0 = '*' then
          nextToken s fuel (skipBlockComment s (s.length + 1) (lexAdvance s st1).2)
        else (⟨.DIVIDE, "/".toList, startLine, startColumn⟩, st1)
      else if c = '+' then (⟨.PLUS, "+".toList, startLine, startColumn⟩, st1)
      else if c = '-' then (⟨.MINUS, "-".toList, startLine, startColumn⟩, st1)
      else if c = '*' then (⟨.MULTIPLY, "*".toList, startLine, startColumn⟩, st1)
      else if c = '%' then (⟨.MODULO, "%".toList, startLine, startColumn⟩, st1)
      else if c = ';' then (⟨.SEMICOLON, ";".toList, startLine, startColumn⟩, st1)
      else if c = ',' then (⟨.COMMA, ",".toList, startLine, startColumn⟩, st1)
      else if c = '.' then (⟨.DOT, ".".toList, startLine, startColumn⟩, st1)
      else if c = '(' then (⟨.LEFT_PAREN, "(".toList, startLine, startColumn⟩, st1)
      else if c = ')' then (⟨.RIGHT_PAREN, ")".toList, startLine, startColumn⟩, st1)
      else if c = '\x7b' then (⟨.LEFT_BRACE, [c], startLine, startColumn⟩, st1)
      else if c = '\x7d' then (⟨.RIGHT_BRACE, [c], startLine, startColumn⟩, st1)
      else if c = '[' then (⟨.LEFT_BRACKET, "[".toList, startLine, startColumn⟩, st1)
      else if c = ']' then (⟨.RIGHT_BRACKET, "]".toList, startLine, startColumn⟩, st1)
      else if c = quoteD ∨ c = quoteS then scanString s (backUp st1)
      else (⟨.UNKNOWN, [c], startLine, startColumn⟩, st1)

/-- One call of `nextToken` with the always-sufficient fuel. -/
def lexNext (s : List Char) (st : LexPos) : Token × LexPos :=
  nextToken s (s.length + 1) st

/-- The do/while loop of `Lexer::tokenize`, fuel-indexed. -/
def tokenizeAux (s : List Char) : Nat → LexPos → List Token × LexPos
  | 0, st => ([], st)
  | fuel + 1, st =>
    let (tok, st1) := lexNext s st
    if tok.type = .END_OF_FILE then ([tok], st1)
    else
      let (rest, st2) := tokenizeAux s fuel st1
      (tok :: rest, st2)

/-- `Lexer::tokenize` run from an arbitrary cursor state (the member
function does not reset the cursor, so re-entry starts from wherever
the previous call left it). -/
def tokenizeFrom (s : List Char) (st : LexPos) : List Token × LexPos :=
  tokenizeAux s (s.length + 2) st

/-- Lexing a source from a freshly constructed `Lexer`. -/
def tokenize (s : List Char) : List Token × LexPos :=
  tokenizeFrom s initLexPos

/-! ## The spec side of the lexeme-concatenation property

The specification speaks of "the source's non-whitespace, non-comment
content".  The next definitions formalize that phrase directly from
the spec's description of whitespace (space, tab, CR, LF), line
comments (`//` to the next LF) and block comments (`/*` to the next
`*/`, unnested); they are deliberately independent of the lexer. -/

/-- Index of the character after a line comment's body: the position
of the next LF (the LF itself is whitespace), or the end of input. -/
def skipToNewline (s : List Char) : Nat → Nat → Nat
  | 0, pos => pos
  | fuel + 1, pos =>
    if pos < s.length ∧ s.getD pos nulChar ≠ '\n' then
      skipToNewline s fuel (pos + 1)
    else pos

/-- Index just past the closing `*/` of a block comment body, or the
end of input when the comment is unterminated. -/
def skipToBlockEnd (s : List Char) : Nat → Nat → Nat
  | 0, pos => pos
  | fuel + 1, pos =>
    if s.length ≤ pos then pos
    else if s.getD pos nulChar = '*' ∧ s.getD (pos + 1) nulChar = '/' then
      pos + 2
    else skipToBlockEnd s fuel (pos + 1)

/-- The source's content from position `pos` on, with whitespace and
comments discarded, straight from the spec's words. -/
def contentAux (s : List Char) : Nat → Nat → List Char
  | 0, _ => []
  | fuel + 1, pos =>
    if s.length ≤ pos then []
    else if isWsChar (s.getD pos nulChar) then contentAux s fuel (pos + 1)
    else if s.getD pos nulChar = '/' ∧ s.getD (pos + 1) nulChar = '/' then
      contentAux s fuel (skipToNewline s (s.length + 1) (pos + 2))
    else if s.getD pos nulChar = '/' ∧ s.getD (pos + 1) nulChar = '*' then
      contentAux s fuel (skipToBlockEnd s (s.length + 1) (pos + 2))
    else s.getD pos nulChar :: contentAux s fuel (pos + 1)

/-- The non-whitespace, non-comment content of a source. -/
def nonCommentContent (s : List Char) : List Char :=
  contentAux s (s.length + 1) 0

/-- Concatenation of the lexemes of a token stream, in order. -/
def concatLexemes (ts : List Token) : List Char :=
  ts.foldr (fun t acc => t.value ++ acc) []

/-! ## IR emitter data model (`src/codegen.cpp`)

SSA types are reduced to their type kind; every LLVM value the claims
care about is represented by its type together with the symbolic shape
of the instruction that produced it. -/

/-- The SSA type kinds the emitter uses. -/
inductive LType where
  | f64 | i1 | i32 | i64 | ptr | void
deriving DecidableEq, Repr

/-- `llvm::Type::isIntegerTy`. -/
def LType.isIntegerTy : LType → Bool
  | .i1 | .i32 | .i64 => true
  | _ => false

/-- `llvm::Type::isDoubleTy`. -/
def LType.isDoubleTy : LType → Bool
  | .f64 => true
  | _ => false

/-- `llvm::Type::isPointerTy`. -/
def LType.isPointerTy : LType → Bool
  | .ptr => true
  | _ => false

/-- `llvm::Type::isVoidTy`. -/
def LType.isVoidTy : LType → Bool
  | .void => true
  | _ => false

/-- Symbolic SSA values, by producing shape.  `opaque_` stands for any
value handle whose provenance the claims do not inspect. -/
inductive Val where
  | opaque_ (ty : LType) (id : Nat)
  | siToFp (v : Val)
  | fpToSi (v : Val)
  | unboxedDouble (v : Val)
  | boxed (v : Val)
  | constInt32 (n : Int)
  | constFP (numerator : Nat)
  | nullPtr
deriving DecidableEq, Repr

/-- `llvm::Value::getType` on the symbolic values: `siToFp` and the
unbox helper produce `f64`, `fpToSi` produces `i32` (the emitter
always casts to `Int32Ty`), boxing produces `ptr`. -/
def Val.getType : Val → LType
  | .opaque_ ty _ => ty
  | .siToFp _ => .f64
  | .fpToSi _ => .i32
  | .unboxedDouble _ => .f64
  | .boxed _ => .ptr
  | .constInt32 _ => .i32
  | .constFP _ => .f64
  | .nullPtr => .ptr

/-- `CodeGenerator::convertToDouble`: doubles unchanged, integers via
`sitofp`, pointers via `unboxValue` (which for a `f64` target is
`unboxPointerToDouble`, producing a `f64` phi); anything else is
returned unchanged. -/
def convertToDouble (v : Val) : Val :=
  if v.getType.isDoubleTy then v
  else if v.getType.isIntegerTy then .siToFp v
  else if v.getType.isPointerTy then .unboxedDouble v
  else v

/-- `CodeGenerator::boxValue`: pointers unchanged, doubles boxed via
`malloc`+store, anything else converted to double first and then
boxed.  The C++ recursion `boxValue(convertToDouble(value))` is
unrolled once here, which is exhaustive because `convertToDouble`
never returns a non-pointer, non-double value on non-pointer,
non-double input types other than `void` (for which the second round's
final branch returns the value unchanged, as the C++ recursion also
would loop on — such values never reach `boxValue` in the program). -/
def boxValue (v : Val) : Val :=
  if v.getType.isPointerTy then v
  else if v.getType.isDoubleTy then .boxed v
  else
    let doubleVal := convertToDouble v
    if doubleVal.getType.isPointerTy then doubleVal
    else if doubleVal.getType.isDoubleTy then .boxed doubleVal
    else doubleVal

/-! ### Symbol tables (`pushScope`/`popScope`, `getVariable`,
`setVariable`, `createEntryBlockAlloca`)

A stack allocation (`alloca`) is identified by a numeric id; the
registry records its allocated type and the function in whose entry
block `createEntryBlockAlloca` placed it.  A scope maps names to
alloca ids; the scope list is kept innermost-first, matching the
`rbegin()`-to-`rend()` iteration order over `symbolTables`. -/

/-- What `createEntryBlockAlloca` records about an allocation: its
allocated type and the function whose entry block holds it. -/
structure SlotInfo where
  ty : LType
  func : Option Nat
deriving DecidableEq, Repr

/-- A single symbol table: a map from names to alloca ids. -/
abbrev Scope := List (String × Nat)

/-- Emitter state: the scope stack (innermost first), the alloca
registry, a fresh-id counter, the `currentFunction` member and the
builder's current insert block. -/
structure CGState where
  scopes : List Scope
  slots : List (Nat × SlotInfo)
  nextSlot : Nat
  currentFunction : Option Nat
  insertBlock : Option Nat
deriving DecidableEq

/-- Allocated type of an alloca id (`AllocaInst::getAllocatedType`). -/
def CGState.slotTy (st : CGState) (slot : Nat) : Option LType :=
  (st.slots.lookup slot).map SlotInfo.ty

/-- `CodeGenerator::createEntryBlockAlloca`: register a fresh alloca
in the entry block of `func` and return its id. -/
def createEntryBlockAlloca (st : CGState) (func : Option Nat) (ty : LType) :
    Nat × CGState :=
  (st.nextSlot,
   { st with
     slots := (st.nextSlot, ⟨ty, func⟩) :: st.slots
     nextSlot := st.nextSlot + 1 })

/-- `CodeGenerator::pushScope`. -/
def pushScope (st : CGState) : CGState :=
  { st with scopes := ([] : Scope) :: st.scopes }

/-- `CodeGenerator::popScope`. -/
def popScope (st : CGState) : CGState :=
  { st with scopes := st.scopes.tail }

/-- The innermost-to-outermost lookup shared by `getVariable` and
`setVariable`: the alloca id bound to `name` in the innermost scope
binding it. -/
def findSlot : List Scope → String → Option Nat
  | [], _ => none
  | sc :: rest, name =>
    match sc.lookup name with
    | some slot => some slot
    | none => findSlot rest name

/-- `CodeGenerator::getVariable`: a load of the found slot at its
allocated type, or `none` (C++ `nullptr`) when no scope binds the
name.  The result is the type of the emitted load and the slot id. -/
def getVariable (st : CGState) (name : String) : Option (LType × Nat) :=
  match findSlot st.scopes name with
  | some slot =>
    match st.slotTy slot with
    | some ty => some (ty, slot)
    | none => none
  | none => none

/-- Which store `setVariable` performed, for the theorems. -/
inductive SetAction where
  | storeExisting (slot : Nat)
  | storeFresh (slot : Nat)
  | noop
deriving DecidableEq, Repr

/-- Replace the binding of `name` in an assoc list (`var->second =
newAlloca`). -/
def rebind : List (String × Nat) → String → Nat → List (String × Nat)
  | [], _, _ => []
  | (k, v) :: rest, name, slot =>
    (if k = name then (k, slot) else (k, v)) :: rebind rest name slot

/-- The scope-walking part of `CodeGenerator::setVariable`: find the
innermost binding; if the value's type matches the slot's allocated
type, store in place, otherwise allocate a fresh entry-block slot of
the value's type and redirect the binding.  Returns `none` when no
scope binds the name. -/
def setVarScopes (st : CGState) (name : String) (vty : LType) :
    List Scope → Option (List Scope × CGState × SetAction)
  | [] => none
  | sc :: rest =>
    match sc.lookup name with
    | some slot =>
      if st.slotTy slot = some vty then
        some (sc :: rest, st, .storeExisting slot)
      else
        let (newSlot, st1) := createEntryBlockAlloca st st.currentFunction vty
        some (rebind sc name newSlot :: rest, st1, .storeFresh newSlot)
    | none =>
      match setVarScopes st name vty rest with
      | some (rest1, st1, act) => some (sc :: rest1, st1, act)
      | none => none

/-- `CodeGenerator::setVariable`.  When no scope binds the name and a
current function exists, a fresh slot is created and registered in the
innermost scope (`symbolTables.back()`); with no current function the
call silently does nothing. -/
def setVariable (st : CGState) (name : String) (vty : LType) :
    CGState × SetAction :=
  match setVarScopes st name vty st.scopes with
  | some (scopes1, st1, act) => ({ st1 with scopes := scopes1 }, act)
  | none =>
    match st.currentFunction with
    | some _ =>
      let (slot, st1) := createEntryBlockAlloca st st.currentFunction vty
      match st1.scopes with
      | sc :: rest =>
        ({ st1 with scopes := ((name, slot) :: sc) :: rest }, .storeFresh slot)
      | [] => (st1, .noop)
    | none => (st, .noop)

/-- The emission-error taxonomy that `CodeGenerator` raises with
`throw std::runtime_error`. -/
inductive EmitError where
  | UndefinedVariable (name : String)
  | UndefinedFunction (name : String)
  | UnknownOperator (op : String)
  | BuiltinArity (msg : String)
  | FunctionVerificationFailed
deriving DecidableEq, Repr

/-- `CodeGenerator::visit(Identifier*)`: load the variable or throw
`Undefined variable`. -/
def visitIdentifier (st : CGState) (name : String) :
    Except EmitError (LType × Nat) :=
  match getVariable st name with
  | some v => .ok v
  | none => .error (.UndefinedVariable name)

/-- `CodeGenerator::visit(AssignmentExpression*)`: evaluate the value
(given here by its SSA type), `setVariable`, push the value.  The
visitor contains no throw of its own; its result is the new state, the
action taken, and the pushed type. -/
def visitAssignment (st : CGState) (name : String) (vty : LType) :
    CGState × SetAction × LType :=
  let (st1, act) := setVariable st name vty
  (st1, act, vty)

/-! ### Call-expression arity checking (`visit(CallExpression*)`)

The visitor dispatches on the callee name in a fixed `else if` chain.
Each branch validates the argument count first; the outcome of that
validation is what claim C2 is about, so it is modelled on its own:
`fatal` is `throw std::runtime_error(...)` (caught by `generate`,
which then returns failure), `printedDiagnostic` is
`std::cerr << ...; return;` (emission continues and `generate` can
still succeed), `proceed` means the check passed. -/

inductive ArityOutcome where
  | fatal
  | printedDiagnostic
  | proceed
deriving DecidableEq, Repr

/-- The arity validation performed at the head of each branch of
`CodeGenerator::visit(CallExpression*)`, in the source's dispatch
order.  `userFunctions` stands for the contents of the `functions`
table for the final user-defined-call branch. -/
def callArityOutcome (userFunctions : List String) (name : String)
    (argc : Nat) : ArityOutcome :=
  if name = "input" then .proceed
  else if name = "str" then
    if argc ≠ 1 then .printedDiagnostic else .proceed
  else if name = "num" then
    if argc ≠ 1 then .printedDiagnostic else .proceed
  else if name = "int" then
    if argc ≠ 1 then .printedDiagnostic else .proceed
  else if name = "abs" then
    if argc ≠ 1 then .printedDiagnostic else .proceed
  else if name = "round" then
    if argc < 1 ∨ 2 < argc then .printedDiagnostic else .proceed
  else if name = "min" then
    if argc < 2 then .printedDiagnostic else .proceed
  else if name = "max" then
    if argc < 2 then .printedDiagnostic else .proceed
  else if name = "pow" then
    if argc ≠ 2 then .printedDiagnostic else .proceed
  else if name = "sqrt" then
    if argc ≠ 1 then .printedDiagnostic else .proceed
  else if name = "random" then .proceed
  else if name = "len" then
    if argc ≠ 1 then .fatal else .proceed
  else if name = "upper" then
    if argc ≠ 1 then .fatal else .proceed
  else if name = "lower" then
    if argc ≠ 1 then .fatal else .proceed
  else if name = "includes" then
    if argc ≠ 2 then .fatal else .proceed
  else if name = "replace" then
    if argc ≠ 3 then .fatal else .proceed
  else if name = "append" then
    if argc ≠ 2 then .fatal else .proceed
  else if name = "print" then .proceed
  else if userFunctions.contains name then .proceed
  else .fatal

/-- `CodeGenerator::generate` wraps emission in `try { ... } catch
(const std::exception&) { return false; }`: only a thrown error makes
the compilation fail (module verification aside).  This predicate says
whether an arity-check outcome aborts the compilation. -/
def abortsCompilation (o : ArityOutcome) : Bool :=
  match o with
  | .fatal => true
  | .printedDiagnostic => false
  | .proceed => false

/-! ### Function emission (`visit(FunctionDeclaration*)`)

The claims only concern the save/restore discipline around the body
and the verifier, so body emission (parameter allocas plus
`node->body->accept(this)`) is an arbitrary state transformer and the
verifier verdict an arbitrary boolean; everything else is transcribed
from the visitor: save `currentFunction` and the insert block, switch
to the new function's entry block, push a scope, emit the body, pop
the scope, restore the saved values, and only then run the verifier,
throwing `Function generation failed` on a verdict of failure.  The
C++ exception does not roll the member state back, so the result is
the final state paired with the optional error. -/

def visitFunctionDeclaration (st : CGState) (funcId entryBlock : Nat)
    (emitBody : CGState → CGState) (verifierFails : Bool) :
    CGState × Option EmitError :=
  let previousFunction := st.currentFunction
  let previousBlock := st.insertBlock
  let st1 := { st with currentFunction := some funcId
                       insertBlock := some entryBlock }
  let st2 := pushScope st1
  let st3 := emitBody st2
  let st4 := popScope st3
  let st5 := { st4 with currentFunction := previousFunction }
  let st6 :=
    match previousBlock with
    | some b => { st5 with insertBlock := some b }
    | none => st5
  if verifierFails then (st6, some .FunctionVerificationFailed)
  else (st6, none)

/-! ### Return statements (`visit(ReturnStatement*)`) -/

/-- The terminator `visit(ReturnStatement*)` emits. -/
inductive RetInstr where
  | ret (v : Val)
  | retVoid
deriving DecidableEq, Repr

/-- `CodeGenerator::visit(ReturnStatement*)`: coerce the value to the
current function's return type (`fptosi` for double-to-integer,
constant `i32 0` for pointer-to-integer, boxing for non-pointer-to-
pointer), or with no value emit `ret void` for void, integer zero for
integer, null for pointer, and `ret void` for anything else. -/
def visitReturnStatement (returnType : LType) (value : Option Val) :
    RetInstr :=
  match value with
  | some v =>
    let v1 :=
      if returnType.isIntegerTy then
        if v.getType.isDoubleTy then Val.fpToSi v
        else if v.getType.isPointerTy then Val.constInt32 0
        else v
      else if returnType.isPointerTy then
        if ¬ v.getType.isPointerTy then boxValue v
        else v
      else v
    .ret v1
  | none =>
    if returnType.isVoidTy then .retVoid
    else if returnType.isIntegerTy then .ret (Val.constInt32 0)
    else if returnType.isPointerTy then .ret Val.nullPtr
    else .retVoid

/-! ### Array literals (`visit(ArrayLiteral*)`) -/

/-- What emitting an array literal produces: the byte count passed to
`malloc`, the stores performed in order (slot index measured in
`f64` slots from the allocation base, stored value), and the slot the
pushed pointer points at. -/
structure ArrayEmission where
  mallocSize : Nat
  stores : List (Nat × Val)
  pushedSlot : Nat
deriving DecidableEq, Repr

/-- `CodeGenerator::visit(ArrayLiteral*)`: `malloc((n+1)*8)`, store
the count as a double at slot 0, store each element converted to
double at slots `1..n` in source order, push `dataPtr`, the pointer to
slot 1.  Element expressions are represented by the values their
emission pushed. -/
def visitArrayLiteral (elems : List Val) : ArrayEmission :=
  let elementCount := elems.length
  { mallocSize := (elementCount + 1) * 8
    stores := (0, Val.constFP elementCount) ::
      (elems.enum.map fun p => (1 + p.1, convertToDouble p.2))
    pushedSlot := 1 }

/-! ### Pointer sniffing (`isStringPointer`) -/

/-- `CodeGenerator::isStringPointer`, evaluated on the byte that the
emitted `load i8` reads at offset 0 of the pointer: an unsigned
printable-ASCII range check, optionally OR-ed with a zero test when
empty strings are allowed. -/
def isStringPointer (firstByte : Nat) (allowEmptyStrings : Bool) : Bool :=
  let isPrintable := decide (32 ≤ firstByte) && decide (firstByte ≤ 126)
  if allowEmptyStrings then
    decide (firstByte = 0) || isPrintable
  else
    isPrintable

/-! ## Parser (`src/parser.cpp`)

The recursive-descent parser, with the token vector as an immutable
parameter and the `current` cursor as an explicit position.  A thrown
`Parser::ParseError` becomes `Except.error .parseError` (the message
and location are dropped); `Except.error .outOfFuel` is the fuel
artifact of embedding the recursion and never occurs at the fuel the
top-level entry points pass.  `std::stod` is not modelled: a
`NumberLiteral` keeps its decimal lexeme. -/

/-- AST expressions, from `include/ast.h` (index/array-literal nodes
exist in the AST but have no parser path and cannot be produced). -/
inductive Expr where
  | numberLit (lexeme : List Char)
  | stringLit (value : List Char)
  | boolLit (b : Bool)
  | nullLit
  | ident (name : List Char)
  | binary (left : Expr) (op : List Char) (right : Expr)
  | unary (op : List Char) (operand : Expr)
  | assign (name : List Char) (value : Expr)
  | call (name : List Char) (args : List Expr)

/-- AST statements, from `include/ast.h`. -/
inductive Stmt where
  | exprStmt (e : Expr)
  | varDecl (kind : List Char) (name : List Char) (init : Option Expr)
  | block (stmts : List Stmt)
  | ifStmt (cond : Expr) (thenStmt : Stmt) (elseStmt : Option Stmt)
  | whileStmt (cond : Expr) (body : Stmt)
  | forStmt (init : Option Stmt) (cond : Option Expr)
            (update : Option Expr) (body : Stmt)
  | returnStmt (value : Option Expr)
  | funcDecl (name : List Char) (params : List (List Char))
             (body : List Stmt)

/-- The root `Program` node. -/
structure Program where
  statements : List Stmt

/-- Failure modes of an embedded parse function. -/
inductive PFail where
  | parseError
  | outOfFuel
deriving DecidableEq, Repr

/-- Fallback token for out-of-range accesses (`tokens.back()`); the
lexer always terminates its output with EOF. -/
def eofFallback : Token := ⟨.END_OF_FILE, [], 0, 0⟩

/-- `Parser::peek` (offset 0): clamped to the final token. -/
def pPeek (toks : List Token) (pos : Nat) : Token :=
  if toks.length ≤ pos then toks.getD (toks.length - 1) eofFallback
  else toks.getD pos eofFallback

/-- `tokens[current - 1]`, the most recently consumed token. -/
def pPrev (toks : List Token) (pos : Nat) : Token :=
  toks.getD (pos - 1) eofFallback

/-- `Parser::isAtEnd`. -/
def isAtEndP (toks : List Token) (pos : Nat) : Bool :=
  (pPeek toks pos).type = .END_OF_FILE

/-- `Parser::check`. -/
def checkP (toks : List Token) (pos : Nat) (t : TokenType) : Bool :=
  ¬ isAtEndP toks pos ∧ (pPeek toks pos).type = t

/-- `Parser::consume`: advance past a token of the expected type or
throw a parse error. -/
def consumeP (toks : List Token) (pos : Nat) (t : TokenType) : Except PFail (Token × Nat) :=
  if checkP toks pos t then .ok (pPeek toks pos, pos + 1)
  else .error .parseError

mutual

/-- `Parser::parseStatement`. -/
def parseStatement (toks : List Token) : Nat → Nat → Except PFail (Stmt × Nat)
  | 0, _ => .error .outOfFuel
  | fuel + 1, pos =>
    if checkP toks pos .FUNCTION then
      parseFunctionDeclaration toks fuel (pos + 1)
    else if checkP toks pos .VAR ∨ checkP toks pos .LET
        ∨ checkP toks pos .CONST then
      parseVariableDeclaration toks fuel (pos + 1)
    else if checkP toks pos .IF then parseIfStatement toks fuel (pos + 1)
    else if checkP toks pos .WHILE then parseWhileStatement toks fuel (pos + 1)
    else if checkP toks pos .FOR then parseForStatement toks fuel (pos + 1)
    else if checkP toks pos .RETURN then parseReturnStatement toks fuel (pos + 1)
    else if checkP toks pos .LEFT_BRACE then parseBlockStatement toks fuel (pos + 1)
    else parseExpressionStatement toks fuel pos
termination_by structural fuel _ => fuel


/-- `Parser::parseVariableDeclaration` (the declaring keyword has just
been consumed and is read back through `tokens[current - 1]`). -/
def parseVariableDeclaration (toks : List Token) : Nat → Nat → Except PFail (Stmt × Nat)
  | 0, _ => .error .outOfFuel
  | fuel + 1, pos => do
    let kind := pPrev toks pos
    let (nameTok, pos1) ← consumeP toks pos .IDENTIFIER
    if checkP toks pos1 .ASSIGN then do
      let (init, pos2) ← parseExpression toks fuel (pos1 + 1)
      let (_, pos3) ← consumeP toks pos2 .SEMICOLON
      .ok (.varDecl kind.value nameTok.value (some init), pos3)
    else do
      let (_, pos2) ← consumeP toks pos1 .SEMICOLON
      .ok (.varDecl kind.value nameTok.value none, pos2)


/-- The parameter list do/while loop inside
`Parser::parseFunctionDeclaration`. -/
def parseParamList (toks : List Token) : Nat → Nat → Except PFail (List (List Char) × Nat)
  | 0, _ => .error .outOfFuel
  | fuel + 1, pos => do
    let (param, pos1) ← consumeP toks pos .IDENTIFIER
    if checkP toks pos1 .COMMA then do
      let (rest, pos2) ← parseParamList toks fuel (pos1 + 1)
      .ok (param.value :: rest, pos2)
    else .ok ([param.value], pos1)
termination_by structural fuel _ => fuel


/-- `Parser::parseFunctionDeclaration` (after `function`). -/
def parseFunctionDeclaration (toks : List Token) : Nat → Nat → Except PFail (Stmt × Nat)
  | 0, _ => .error .outOfFuel
  | fuel + 1, pos => do
    let (nameTok, pos1) ← consumeP toks pos .IDENTIFIER
    let (_, pos2) ← consumeP toks pos1 .LEFT_PAREN
    let (params, pos3) ←
      if checkP toks pos2 .RIGHT_PAREN then .ok (([] : List (List Char)), pos2)
      else parseParamList toks fuel pos2
    let (_, pos4) ← consumeP toks pos3 .RIGHT_PAREN
    let (_, pos5) ← consumeP toks pos4 .LEFT_BRACE
    let (body, pos6) ← parseBlockStatement toks fuel pos5
    match body with
    | .block stmts => .ok (.funcDecl nameTok.value params stmts, pos6)
    | _ => .ok (.funcDecl nameTok.value params [], pos6)
termination_by structural fuel _ => fuel


/-- `Parser::parseIfStatement` (after `if`). -/
def parseIfStatement (toks : List Token) : Nat → Nat → Except PFail (Stmt × Nat)
  | 0, _ => .error .outOfFuel
  | fuel + 1, pos => do
    let (_, pos1) ← consumeP toks pos .LEFT_PAREN
    let (cond, pos2) ← parseExpression toks fuel pos1
    let (_, pos3) ← consumeP toks pos2 .RIGHT_PAREN
    let (thenStmt, pos4) ← parseStatement toks fuel pos3
    if checkP toks pos4 .ELSE then do
      let (elseStmt, pos5) ← parseStatement toks fuel (pos4 + 1)
      .ok (.ifStmt cond thenStmt (some elseStmt), pos5)
    else .ok (.ifStmt cond thenStmt none, pos4)
termination_by structural fuel _ => fuel


/-- `Parser::parseWhileStatement` (after `while`). -/
def parseWhileStatement (toks : List Token) : Nat → Nat → Except PFail (Stmt × Nat)
  | 0, _ => .error .outOfFuel
  | fuel + 1, pos => do
    let (_, pos1) ← consumeP toks pos .LEFT_PAREN
    let (cond, pos2) ← parseExpression toks fuel pos1
    let (_, pos3) ← consumeP toks pos2 .RIGHT_PAREN
    let (body, pos4) ← parseStatement toks fuel pos3
    .ok (.whileStmt cond body, pos4)
termination_by structural fuel _ => fuel


/-- `Parser::parseForStatement` (after `for`). -/
def parseForStatement (toks : List Token) : Nat → Nat → Except PFail (Stmt × Nat)
  | 0, _ => .error .outOfFuel
  | fuel + 1, pos => do
    let (_, pos1) ← consumeP toks pos .LEFT_PAREN
    let (init, pos2) ←
      if checkP toks pos1 .SEMICOLON then
        .ok ((none : Option Stmt), pos1 + 1)
      else if checkP toks pos1 .VAR ∨ checkP toks pos1 .LET
          ∨ checkP toks pos1 .CONST then do
        let (d, p) ← parseVariableDeclaration toks fuel (pos1 + 1)
        .ok (some d, p)
      else do
        let (e, p) ← parseExpression toks fuel pos1
        let (_, p1) ← consumeP toks p .SEMICOLON
        .ok (some (Stmt.exprStmt e), p1)
    let (cond, pos3) ←
      if checkP toks pos2 .SEMICOLON then .ok ((none : Option Expr), pos2)
      else do
        let (c, p) ← parseExpression toks fuel pos2
        .ok (some c, p)
    let (_, pos4) ← consumeP toks pos3 .SEMICOLON
    let (update, pos5) ←
      if checkP toks pos4 .RIGHT_PAREN then .ok ((none : Option Expr), pos4)
      else do
        let (u, p) ← parseExpression toks fuel pos4
        .ok (some u, p)
    let (_, pos6) ← consumeP toks pos5 .RIGHT_PAREN
    let (body, pos7) ← parseStatement toks fuel pos6
    .ok (.forStmt init cond update body, pos7)
termination_by structural fuel _ => fuel


/-- `Parser::parseReturnStatement` (after `return`). -/
def parseReturnStatement (toks : List Token) : Nat → Nat → Except PFail (Stmt × Nat)
  | 0, _ => .error .outOfFuel
  | fuel + 1, pos => do
    let (value, pos1) ←
      if checkP toks pos .SEMICOLON then .ok ((none : Option Expr), pos)
      else do
        let (v, p) ← parseExpression toks fuel pos
        .ok (some v, p)
    let (_, pos2) ← consumeP toks pos1 .SEMICOLON
    .ok (.returnStmt value, pos2)


/-- The statement loop inside `Parser::parseBlockStatement`. -/
def parseBlockLoop (toks : List Token) : Nat → Nat → Except PFail (List Stmt × Nat)
  | 0, _ => .error .outOfFuel
  | fuel + 1, pos =>
    if ¬ checkP toks pos .RIGHT_BRACE ∧ ¬ isAtEndP toks pos then do
      let (stmt, pos1) ← parseStatement toks fuel pos
      let (rest, pos2) ← parseBlockLoop toks fuel pos1
      .ok (stmt :: rest, pos2)
    else .ok ([], pos)
termination_by structural fuel _ => fuel


/-- `Parser::parseBlockStatement` (after `{`). -/
def parseBlockStatement (toks : List Token) : Nat → Nat → Except PFail (Stmt × Nat)
  | 0, _ => .error .outOfFuel
  | fuel + 1, pos => do
    let (stmts, pos1) ← parseBlockLoop toks fuel pos
    let (_, pos2) ← consumeP toks pos1 .RIGHT_BRACE
    .ok (.block stmts, pos2)
termination_by structural fuel _ => fuel


/-- `Parser::parseExpressionStatement`. -/
def parseExpressionStatement (toks : List Token) : Nat → Nat → Except PFail (Stmt × Nat)
  | 0, _ => .error .outOfFuel
  | fuel + 1, pos => do
    let (e, pos1) ← parseExpression toks fuel pos
    let (_, pos2) ← consumeP toks pos1 .SEMICOLON
    .ok (.exprStmt e, pos2)


/-- `Parser::parseExpression`. -/
def parseExpression (toks : List Token) : Nat → Nat → Except PFail (Expr × Nat)
  | 0, _ => .error .outOfFuel
  | fuel + 1, pos => parseAssignment toks fuel pos
termination_by structural fuel _ => fuel


/-- `Parser::parseAssignment`.  On a non-identifier target the
`Invalid assignment target` diagnostic is reported but NOT thrown; the
already-consumed `=` stays consumed and the left expression is
returned. -/
def parseAssignment (toks : List Token) : Nat → Nat → Except PFail (Expr × Nat)
  | 0, _ => .error .outOfFuel
  | fuel + 1, pos => do
    let (expr, pos1) ← parseLogicalOr toks fuel pos
    if checkP toks pos1 .ASSIGN then
      match expr with
      | .ident name => do
        let (value, pos2) ← parseAssignment toks fuel (pos1 + 1)
        .ok (.assign name value, pos2)
      | _ => .ok (expr, pos1 + 1)
    else .ok (expr, pos1)
termination_by structural fuel _ => fuel


/-- The `||` loop of `Parser::parseLogicalOr`. -/
def parseLogicalOrLoop (toks : List Token) : Nat → Nat → Expr → Except PFail (Expr × Nat)
  | 0, _, _ => .error .outOfFuel
  | fuel + 1, pos, expr =>
    if checkP toks pos .LOGICAL_OR then do
      let (right, pos1) ← parseLogicalAnd toks fuel (pos + 1)
      parseLogicalOrLoop toks fuel pos1
        (.binary expr (pPeek toks pos).value right)
    else .ok (expr, pos)
termination_by structural fuel _ => fuel


/-- `Parser::parseLogicalOr`. -/
def parseLogicalOr (toks : List Token) : Nat → Nat → Except PFail (Expr × Nat)
  | 0, _ => .error .outOfFuel
  | fuel + 1, pos => do
    let (expr, pos1) ← parseLogicalAnd toks fuel pos
    parseLogicalOrLoop toks fuel pos1 expr
termination_by structural fuel _ => fuel


/-- The `&&` loop of `Parser::parseLogicalAnd`. -/
def parseLogicalAndLoop (toks : List Token) : Nat → Nat → Expr → Except PFail (Expr × Nat)
  | 0, _, _ => .error .outOfFuel
  | fuel + 1, pos, expr =>
    if checkP toks pos .LOGICAL_AND then do
      let (right, pos1) ← parseEquality toks fuel (pos + 1)
      parseLogicalAndLoop toks fuel pos1
        (.binary expr (pPeek toks pos).value right)
    else .ok (expr, pos)
termination_by structural fuel _ => fuel


/-- `Parser::parseLogicalAnd`. -/
def parseLogicalAnd (toks : List Token) : Nat → Nat → Except PFail (Expr × Nat)
  | 0, _ => .error .outOfFuel
  | fuel + 1, pos => do
    let (expr, pos1) ← parseEquality toks fuel pos
    parseLogicalAndLoop toks fuel pos1 expr
termination_by structural fuel _ => fuel


/-- The `==`/`!=` loop of `Parser::parseEquality`. -/
def parseEqualityLoop (toks : List Token) : Nat → Nat → Expr → Except PFail (Expr × Nat)
  | 0, _, _ => .error .outOfFuel
  | fuel + 1, pos, expr =>
    if checkP toks pos .EQUAL ∨ checkP toks pos .NOT_EQUAL then do
      let (right, pos1) ← parseComparison toks fuel (pos + 1)
      parseEqualityLoop toks fuel pos1
        (.binary expr (pPeek toks pos).value right)
    else .ok (expr, pos)
termination_by structural fuel _ => fuel


/-- `Parser::parseEquality`. -/
def parseEquality (toks : List Token) : Nat → Nat → Except PFail (Expr × Nat)
  | 0, _ => .error .outOfFuel
  | fuel + 1, pos => do
    let (expr, pos1) ← parseComparison toks fuel pos
    parseEqualityLoop toks fuel pos1 expr
termination_by structural fuel _ => fuel


/-- The comparison-operator loop of `Parser::parseComparison`. -/
def parseComparisonLoop (toks : List Token) : Nat → Nat → Expr → Except PFail (Expr × Nat)
  | 0, _, _ => .error .outOfFuel
  | fuel + 1, pos, expr =>
    if checkP toks pos .GREATER_THAN ∨ checkP toks pos .GREATER_EQUAL
        ∨ checkP toks pos .LESS_THAN ∨ checkP toks pos .LESS_EQUAL then do
      let (right, pos1) ← parseAddition toks fuel (pos + 1)
      parseComparisonLoop toks fuel pos1
        (.binary expr (pPeek toks pos).value right)
    else .ok (expr, pos)
termination_by structural fuel _ => fuel


/-- `Parser::parseComparison`. -/
def parseComparison (toks : List Token) : Nat → Nat → Except PFail (Expr × Nat)
  | 0, _ => .error .outOfFuel
  | fuel + 1, pos => do
    let (expr, pos1) ← parseAddition toks fuel pos
    parseComparisonLoop toks fuel pos1 expr
termination_by structural fuel _ => fuel


/-- The `+`/`-` loop of `Parser::parseAddition`. -/
def parseAdditionLoop (toks : List Token) : Nat → Nat → Expr → Except PFail (Expr × Nat)
  | 0, _, _ => .error .outOfFuel
  | fuel + 1, pos, expr =>
    if checkP toks pos .PLUS ∨ checkP toks pos .MINUS then do
      let (right, pos1) ← parseMultiplication toks fuel (pos + 1)
      parseAdditionLoop toks fuel pos1
        (.binary expr (pPeek toks pos).value right)
    else .ok (expr, pos)
termination_by structural fuel _ => fuel


/-- `Parser::parseAddition`. -/
def parseAddition (toks : List Token) : Nat → Nat → Except PFail (Expr × Nat)
  | 0, _ => .error .outOfFuel
  | fuel + 1, pos => do
    let (expr, pos1) ← parseMultiplication toks fuel pos
    parseAdditionLoop toks fuel pos1 expr
termination_by structural fuel _ => fuel


/-- The `*`/`/`/`%` loop of `Parser::parseMultiplication`. -/
def parseMultiplicationLoop (toks : List Token) :
    Nat → Nat → Expr → Except PFail (Expr × Nat)
  | 0, _, _ => .error .outOfFuel
  | fuel + 1, pos, expr =>
    if checkP toks pos .MULTIPLY ∨ checkP toks pos .DIVIDE
        ∨ checkP toks pos .MODULO then do
      let (right, pos1) ← parseUnary toks fuel (pos + 1)
      parseMultiplicationLoop toks fuel pos1
        (.binary expr (pPeek toks pos).value right)
    else .ok (expr, pos)
termination_by structural fuel _ => fuel


/-- `Parser::parseMultiplication`. -/
def parseMultiplication (toks : List Token) : Nat → Nat → Except PFail (Expr × Nat)
  | 0, _ => .error .outOfFuel
  | fuel + 1, pos => do
    let (expr, pos1) ← parseUnary toks fuel pos
    parseMultiplicationLoop toks fuel pos1 expr
termination_by structural fuel _ => fuel


/-- `Parser::parseUnary`. -/
def parseUnary (toks : List Token) : Nat → Nat → Except PFail (Expr × Nat)
  | 0, _ => .error .outOfFuel
  | fuel + 1, pos =>
    if checkP toks pos .LOGICAL_NOT ∨ checkP toks pos .MINUS then do
      let (right, pos1) ← parseUnary toks fuel (pos + 1)
      .ok (.unary (pPeek toks pos).value right, pos1)
    else parseCall toks fuel pos
termination_by structural fuel _ => fuel


/-- The argument-list do/while loop inside `Parser::parseCall`. -/
def parseArgList (toks : List Token) : Nat → Nat → Except PFail (List Expr × Nat)
  | 0, _ => .error .outOfFuel
  | fuel + 1, pos => do
    let (arg, pos1) ← parseExpression toks fuel pos
    if checkP toks pos1 .COMMA then do
      let (rest, pos2) ← parseArgList toks fuel (pos1 + 1)
      .ok (arg :: rest, pos2)
    else .ok ([arg], pos1)
termination_by structural fuel _ => fuel


/-- The postfix `(` loop of `Parser::parseCall`.  On a non-identifier
callee the `Can only call functions` diagnostic is reported but NOT
thrown; the `(` stays consumed and the loop continues. -/
def parseCallLoop (toks : List Token) : Nat → Nat → Expr → Except PFail (Expr × Nat)
  | 0, _, _ => .error .outOfFuel
  | fuel + 1, pos, expr =>
    if checkP toks pos .LEFT_PAREN then
      match expr with
      | .ident name =>
        if checkP toks (pos + 1) .RIGHT_PAREN then
          parseCallLoop toks fuel (pos + 2) (.call name [])
        else do
          let (args, pos1) ← parseArgList toks fuel (pos + 1)
          let (_, pos2) ← consumeP toks pos1 .RIGHT_PAREN
          parseCallLoop toks fuel pos2 (.call name args)
      | _ => parseCallLoop toks fuel (pos + 1) expr
    else .ok (expr, pos)
termination_by structural fuel _ => fuel


/-- `Parser::parseCall`. -/
def parseCall (toks : List Token) : Nat → Nat → Except PFail (Expr × Nat)
  | 0, _ => .error .outOfFuel
  | fuel + 1, pos => do
    let (expr, pos1) ← parsePrimary toks fuel pos
    parseCallLoop toks fuel pos1 expr
termination_by structural fuel _ => fuel


/-- `Parser::parsePrimary`; the final case is the thrown
`Expected expression` error. -/
def parsePrimary (toks : List Token) : Nat → Nat → Except PFail (Expr × Nat)
  | 0, _ => .error .outOfFuel
  | fuel + 1, pos =>
    if checkP toks pos .TRUE then .ok (.boolLit true, pos + 1)
    else if checkP toks pos .FALSE then .ok (.boolLit false, pos + 1)
    else if checkP toks pos .NULL_TOKEN then .ok (.nullLit, pos + 1)
    else if checkP toks pos .NUMBER then
      .ok (.numberLit (pPeek toks pos).value, pos + 1)
    else if checkP toks pos .STRING then
      .ok (.stringLit (pPeek toks pos).value, pos + 1)
    else if checkP toks pos .IDENTIFIER then
      .ok (.ident (pPeek toks pos).value, pos + 1)
    else if checkP toks pos .LEFT_PAREN then do
      let (expr, pos1) ← parseExpression toks fuel (pos + 1)
      let (_, pos2) ← consumeP toks pos1 .RIGHT_PAREN
      .ok (expr, pos2)
    else .error .parseError
termination_by structural fuel _ => fuel

end

/-- `Parser::advance`: move forward unless at EOF. -/
def advanceP (toks : List Token) (pos : Nat) : Nat :=
  if isAtEndP toks pos then pos else pos + 1

/-- The scan loop of `Parser::synchronize`. -/
def syncLoop (toks : List Token) : Nat → Nat → Nat
  | 0, pos => pos
  | fuel + 1, pos =>
    if isAtEndP toks pos then pos
    else if (pPrev toks pos).type = .SEMICOLON then pos
    else
      match (pPeek toks pos).type with
      | .FUNCTION | .VAR | .LET | .CONST
      | .FOR | .IF | .WHILE | .RETURN => pos
      | _ => syncLoop toks fuel (advanceP toks pos)

/-- `Parser::synchronize`: skip ahead to a statement boundary. -/
def synchronize (toks : List Token) (pos : Nat) : Nat :=
  syncLoop toks (toks.length + 1) (advanceP toks pos)

/-- The statement loop of `Parser::parseProgram`: every parse error
raised by a statement attempt is caught here and answered with
`synchronize`; the loop itself never rethrows. -/
def parseProgramLoop (toks : List Token) : Nat → Nat → Except PFail (List Stmt × Nat)
  | 0, _ => .error .outOfFuel
  | fuel + 1, pos =>
    if isAtEndP toks pos then .ok ([], pos)
    else
      match parseStatement toks fuel pos with
      | .ok (stmt, pos1) =>
        match parseProgramLoop toks fuel pos1 with
        | .ok (rest, pos2) => .ok (stmt :: rest, pos2)
        | .error e => .error e
      | .error .parseError =>
        parseProgramLoop toks fuel (synchronize toks pos)
      | .error .outOfFuel => .error .outOfFuel

/-- `Parser::parseProgram`. -/
def parseProgram (toks : List Token) (fuel : Nat) : Except PFail (List Stmt × Nat) :=
  parseProgramLoop toks fuel 0

/-- `Parser::parse`: `parseProgram` under a `try`/`catch (ParseError)`
returning `nullptr` (`some none`) when a parse error escapes.  The
outer `none` is fuel exhaustion, an artifact of the embedding. -/
def parse (toks : List Token) (fuel : Nat) : Option (Option Program) :=
  match parseProgram toks fuel with
  | .ok (stmts, _) => some (some ⟨stmts⟩)
  | .error .parseError => some none
  | .error .outOfFuel => none

/-! ## Auxiliary definitions used by the proofs -/

/-- A source without string-literal delimiters. -/
def noQuotes (s : List Char) : Prop :=
  ∀ c ∈ s, c ≠ quoteD ∧ c ≠ quoteS

instance (s : List Char) : Decidable (noQuotes s) := by
  unfold noQuotes; infer_instance

/-- A character that the content stripper always keeps: neither
whitespace nor a potential comment opener. -/
def plainChar (c : Char) : Prop :=
  isWsChar c = false ∧ c ≠ '/'

/-- `contentAux` at its canonical (always sufficient) fuel. -/
def contentFrom (s : List Char) (pos : Nat) : List Char :=
  contentAux s (s.length + 1) pos

/-- The source `"a"` — three bytes: quote, `a`, quote. -/
def quotedSrc : List Char := [quoteD, 'a', quoteD]

/-- A concrete emitter state for the claim-C4 counterexample: the
global scope, no allocations, `currentFunction` and insert block both
set (as they are while `main` is being emitted). -/
def c4State : CGState :=
  { scopes := [([] : Scope)], slots := [], nextSlot := 0
    currentFunction := some 0, insertBlock := some 0 }

/-- A concrete body effect for the claim-C4 counterexample: the body
leaves the builder parked in the new function (as emitting statements
into it does). -/
def c4Body (s : CGState) : CGState :=
  { s with currentFunction := some 5, insertBlock := some 7 }

/-- A concrete emitter state for the claim-C1 witness: one scope
binding `x` to an `f64` slot of function 0. -/
def c1State : CGState :=
  { scopes := [([("x", 0)] : Scope)]
    slots := [(0, ⟨.f64, some 0⟩)], nextSlot := 1
    currentFunction := some 0, insertBlock := some 0 }

/-- A concrete emitter state for the claim-C10 witness: one empty
scope, nothing allocated, inside function 0. -/
def c10State : CGState :=
  { scopes := [([] : Scope)], slots := [], nextSlot := 0
    currentFunction := some 0, insertBlock := some 0 }

/-! ## Supporting lemmas -/

/-- `convertToDouble` yields an `f64`-typed value on every type an
expression can actually have (everything but `void`). -/
theorem convertToDouble_type (v : Val) (h : v.getType ≠ .void) :
    (convertToDouble v).getType = .f64 := by
  unfold convertToDouble
  cases hty : v.getType <;>
    simp_all [LType.isDoubleTy, LType.isIntegerTy, LType.isPointerTy,
      Val.getType]

/-! ## Claim C8 -/

/-- C8: `isStringPointer(p, allow_empty)` inspects the byte the
emitted `load i8` reads at offset 0 of `p` and yields true exactly
when that byte lies in the printable-ASCII range `[32, 126]`, with
byte 0 additionally accepted when `allow_empty` is set. -/
theorem C8_isStringPointer (b : Nat) (allowEmpty : Bool) :
    isStringPointer b allowEmpty = true ↔
      ((32 ≤ b ∧ b ≤ 126) ∨ (allowEmpty = true ∧ b = 0)) := by
  cases allowEmpty
  · simp [isStringPointer]
  · simp [isStringPointer]
    tauto

/-! ## Claim C6 -/

/-- C6: return-value coercion in `visit(ReturnStatement*)`.  With a
value: an integer return type converts an `f64` value via `fptosi`
and replaces a `ptr` value by the constant (`i32`) 0; a `ptr` return
type boxes every non-pointer value.  Without a value: `ret void` for a
void return type, the zero of the return type for `i32` (the only
integer return type a Twine function has — `main`) and for `ptr`
(null, the zero of a pointer).  -/
theorem C6_returnStatement (returnType : LType) (v : Val) :
    (returnType.isIntegerTy = true → v.getType = .f64 →
      visitReturnStatement returnType (some v) = .ret (Val.fpToSi v)) ∧
    (returnType.isIntegerTy = true → v.getType = .ptr →
      visitReturnStatement returnType (some v) = .ret (Val.constInt32 0)) ∧
    (returnType = .ptr → v.getType ≠ .ptr → v.getType ≠ .void →
      visitReturnStatement returnType (some v) = .ret (boxValue v) ∧
      (∃ w, boxValue v = Val.boxed w) ∧ (boxValue v).getType = .ptr) ∧
    (returnType = .void → visitReturnStatement returnType none = .retVoid) ∧
    (returnType = .i32 →
      visitReturnStatement returnType none = .ret (Val.constInt32 0)) ∧
    (returnType = .ptr →
      visitReturnStatement returnType none = .ret Val.nullPtr) := by
  refine ⟨?_, ?_, ?_, ?_, ?_, ?_⟩
  · intro hrt hv
    simp [visitReturnStatement, hrt, hv, LType.isDoubleTy]
  · intro hrt hv
    simp [visitReturnStatement, hrt, hv, LType.isDoubleTy,
      LType.isPointerTy]
  · intro hrt hv hv2
    subst hrt
    have hbox : ∃ w, boxValue v = Val.boxed w := by
      unfold boxValue
      cases hty : v.getType <;>
        simp_all [LType.isPointerTy, LType.isDoubleTy, convertToDouble,
          LType.isIntegerTy, Val.getType]
    refine ⟨?_, hbox, ?_⟩
    · simp [visitReturnStatement, LType.isIntegerTy, LType.isPointerTy, hv]
    · obtain ⟨w, hw⟩ := hbox
      simp [hw, Val.getType]
  · intro hrt
    subst hrt
    simp [visitReturnStatement, LType.isVoidTy]
  · intro hrt
    subst hrt
    simp [visitReturnStatement, LType.isVoidTy, LType.isIntegerTy]
  · intro hrt
    subst hrt
    simp [visitReturnStatement, LType.isVoidTy, LType.isIntegerTy,
      LType.isPointerTy]

/-- Witness for C6 at concrete inputs: returning an `f64` value from
`main` (return type `i32`) emits `fptosi`, and a valueless `return`
in a user function (return type `ptr`) returns null. -/
theorem C6_returnStatement_witness :
    visitReturnStatement .i32 (some (Val.opaque_ .f64 0)) =
      .ret (Val.fpToSi (Val.opaque_ .f64 0)) ∧
    visitReturnStatement .ptr none = .ret Val.nullPtr :=
  ⟨(C6_returnStatement .i32 (Val.opaque_ .f64 0)).1 (by decide) (by decide),
   (C6_returnStatement .ptr (Val.opaque_ .f64 0)).2.2.2.2.2 rfl⟩

/-! ## Claim C7 -/

/-- C7: emitting an `ArrayLiteral` of `n` elements calls
`malloc((n+1)*8)`, stores the element count `n` as an `f64` at slot 0,
stores each element coerced to `f64` into slots `1..n` in source
order, and pushes the pointer to slot 1 — the first element, not the
count slot. -/
theorem C7_arrayLiteral (elems : List Val)
    (hty : ∀ v ∈ elems, v.getType ≠ .void) :
    (visitArrayLiteral elems).mallocSize = (elems.length + 1) * 8 ∧
    (visitArrayLiteral elems).stores.length = elems.length + 1 ∧
    (visitArrayLiteral elems).stores.head? =
      some (0, Val.constFP elems.length) ∧
    (Val.constFP elems.length).getType = .f64 ∧
    (∀ i (h : i < elems.length),
      (visitArrayLiteral elems).stores[i + 1]? =
        some (1 + i, convertToDouble elems[i]) ∧
      (convertToDouble elems[i]).getType = .f64) ∧
    (visitArrayLiteral elems).pushedSlot = 1 := by
  refine ⟨rfl, by simp [visitArrayLiteral], rfl, rfl, ?_, rfl⟩
  intro i h
  constructor
  · simp [visitArrayLiteral, List.getElem?_map, List.getElem?_enum,
      List.getElem?_eq_getElem h]
  · exact convertToDouble_type _ (hty _ (List.getElem_mem h))

/-- Witness for C7 on the two-element literal `[f64 #0, i1 #1]`. -/
theorem C7_arrayLiteral_witness :
    (visitArrayLiteral [Val.opaque_ .f64 0, Val.opaque_ .i1 1]).mallocSize
      = 24 ∧
    (visitArrayLiteral [Val.opaque_ .f64 0, Val.opaque_ .i1 1]).stores[2]?
      = some (2, Val.siToFp (Val.opaque_ .i1 1)) ∧
    (visitArrayLiteral [Val.opaque_ .f64 0, Val.opaque_ .i1 1]).pushedSlot
      = 1 := by
  have h := C7_arrayLiteral [Val.opaque_ .f64 0, Val.opaque_ .i1 1]
    (by decide)
  refine ⟨h.1, ?_, h.2.2.2.2.2⟩
  have h2 := (h.2.2.2.2.1 1 (by decide)).1
  simpa [convertToDouble, Val.getType, LType.isDoubleTy,
    LType.isIntegerTy] using h2

/-! ## Claim C4 -/

/-- C4 counterexample: a concrete function emission whose verifier
verdict is failure.  The claim asserts that on this path the saved
outer insertion point and current-function pointer are NOT restored;
in the source (`codegen.cpp:2375–2378`) the restoration happens
unconditionally BEFORE the verifier runs (`codegen.cpp:2380–2387`), so
this run fails verification AND has both values restored. -/
theorem C4_counterexample :
    (visitFunctionDeclaration c4State 1 2 c4Body true).2 =
      some .FunctionVerificationFailed ∧
    (visitFunctionDeclaration c4State 1 2 c4Body true).1.currentFunction =
      c4State.currentFunction ∧
    (visitFunctionDeclaration c4State 1 2 c4Body true).1.insertBlock =
      c4State.insertBlock :=
  ⟨rfl, rfl, rfl⟩

/-- C4 amended: function emission saves the outer insertion point and
current-function pointer and restores them unconditionally before the
verifier runs, hence on the verifier-failure path as well as on
success (the insert point under the proviso that an insertion point
existed when the declaration was entered, since `SetInsertPoint` is
guarded by `if (previousBlock)`). -/
theorem C4_amended (st : CGState) (funcId entryBlock : Nat)
    (emitBody : CGState → CGState) (verifierFails : Bool) (b : Nat)
    (hib : st.insertBlock = some b) :
    (visitFunctionDeclaration st funcId entryBlock emitBody
        verifierFails).1.currentFunction = st.currentFunction ∧
    (visitFunctionDeclaration st funcId entryBlock emitBody
        verifierFails).1.insertBlock = st.insertBlock ∧
    (verifierFails = true →
      (visitFunctionDeclaration st funcId entryBlock emitBody
          verifierFails).2 = some .FunctionVerificationFailed) ∧
    (verifierFails = false →
      (visitFunctionDeclaration st funcId entryBlock emitBody
          verifierFails).2 = none) := by
  cases verifierFails <;> simp [visitFunctionDeclaration, hib]

/-- Witness for C4 amended at a concrete state with a successful
verification. -/
theorem C4_amended_witness :
    (visitFunctionDeclaration c4State 1 2 c4Body false).1.currentFunction =
      c4State.currentFunction ∧
    (visitFunctionDeclaration c4State 1 2 c4Body false).1.insertBlock =
      c4State.insertBlock ∧
    (visitFunctionDeclaration c4State 1 2 c4Body false).2 = none :=
  ⟨(C4_amended c4State 1 2 c4Body false 0 rfl).1,
   (C4_amended c4State 1 2 c4Body false 0 rfl).2.1,
   (C4_amended c4State 1 2 c4Body false 0 rfl).2.2.2 rfl⟩

/-! ## Claim C2 -/

/-- C2 counterexample: `str` called with 2 arguments (arity outside
its requirement of exactly 1) only prints a diagnostic to the error
stream; the visitor `return`s, emission continues, and no exception
reaches `generate`'s catch block, so the compilation is not aborted —
contradicting the claim that every `ArityMismatch` is fatal. -/
theorem C2_counterexample :
    callArityOutcome [] "str" 2 = .printedDiagnostic ∧
    abortsCompilation (callArityOutcome [] "str" 2) = false := by
  constructor <;> rfl

/-- C2 amended: the emission errors raised with `throw` — undefined
variables and functions, unknown operators, verification failures, and
the arity errors of `len`, `upper`, `lower`, `includes`, `replace` and
`append` — are fatal (they unwind to `generate`, which returns an
error).  The arity checks of `str`, `num`, `int`, `abs`, `round`,
`min`, `max`, `pow` and `sqrt`, by contrast, only print a diagnostic
and return: emission continues past them and the compile result can
still be success. -/
theorem C2_amended (fns : List String) (argc : Nat) :
    (argc ≠ 1 →
      callArityOutcome fns "str" argc = .printedDiagnostic ∧
      callArityOutcome fns "num" argc = .printedDiagnostic ∧
      callArityOutcome fns "int" argc = .printedDiagnostic ∧
      callArityOutcome fns "abs" argc = .printedDiagnostic ∧
      callArityOutcome fns "sqrt" argc = .printedDiagnostic ∧
      abortsCompilation (callArityOutcome fns "str" argc) = false) ∧
    (argc < 1 ∨ 2 < argc →
      callArityOutcome fns "round" argc = .printedDiagnostic) ∧
    (argc < 2 →
      callArityOutcome fns "min" argc = .printedDiagnostic ∧
      callArityOutcome fns "max" argc = .printedDiagnostic) ∧
    (argc ≠ 2 →
      callArityOutcome fns "pow" argc = .printedDiagnostic) ∧
    (argc ≠ 1 →
      callArityOutcome fns "len" argc = .fatal ∧
      callArityOutcome fns "upper" argc = .fatal ∧
      callArityOutcome fns "lower" argc = .fatal ∧
      abortsCompilation (callArityOutcome fns "len" argc) = true) ∧
    (argc ≠ 2 →
      callArityOutcome fns "includes" argc = .fatal ∧
      callArityOutcome fns "append" argc = .fatal) ∧
    (argc ≠ 3 →
      callArityOutcome fns "replace" argc = .fatal) := by
  refine ⟨?_, ?_, ?_, ?_, ?_, ?_, ?_⟩ <;>
    (intro h; simp [callArityOutcome, h, abortsCompilation]; try omega)

/-- Witness for C2 amended at `argc = 0`: `str(0 args)` merely prints,
`len(0 args)` throws. -/
theorem C2_amended_witness :
    callArityOutcome [] "str" 0 = .printedDiagnostic ∧
    abortsCompilation (callArityOutcome [] "str" 0) = false ∧
    callArityOutcome [] "len" 0 = .fatal ∧
    abortsCompilation (callArityOutcome [] "len" 0) = true :=
  ⟨((C2_amended [] 0).1 (by decide)).1,
   ((C2_amended [] 0).1 (by decide)).2.2.2.2.2,
   ((C2_amended [] 0).2.2.2.2.1 (by decide)).1,
   ((C2_amended [] 0).2.2.2.2.1 (by decide)).2.2.2⟩

/-! ## Claim C3 -/

/-- C3 counterexample: on the token stream of the source `;` the only
statement attempt raises a parse diagnostic (`Expected expression`),
yet `parse()` returns a `Program` with zero statements, not `None` —
`parseProgram` catches the error and synchronizes, and nothing
rethrows. -/
theorem C3_counterexample :
    parseStatement (tokenize (String.toList ";")).1 20 0 =
      .error .parseError ∧
    parse (tokenize (String.toList ";")).1 21 = some (some ⟨[]⟩) :=
  ⟨rfl, rfl⟩

/-- `parseProgramLoop` catches every parse error a statement attempt
raises and synchronizes; it never rethrows one. -/
theorem parseProgramLoop_no_parseError (toks : List Token) :
    ∀ fuel pos, parseProgramLoop toks fuel pos ≠ .error .parseError := by
  intro fuel
  induction fuel with
  | zero => intro pos h; simp [parseProgramLoop] at h
  | succ n ih =>
    intro pos h
    rw [parseProgramLoop] at h
    split at h
    · simp at h
    · split at h
      next stmt pos1 heq =>
        split at h
        · simp at h
        · next e hrec =>
            cases e with
            | parseError => exact ih pos1 hrec
            | outOfFuel => simp at h
      next heq => exact ih _ h
      next heq => simp at h

/-- C3 amended: `parse` never takes its `catch`-and-return-`None`
branch — `parseProgram` absorbs all statement-level errors, so every
terminating run yields a `Program` (possibly with zero statements);
the outer `none` is only the embedding's fuel artifact. -/
theorem C3_amended (toks : List Token) (fuel : Nat) :
    (∃ stmts, parse toks fuel = some (some ⟨stmts⟩)) ∨
      parse toks fuel = none := by
  unfold parse parseProgram
  cases h : parseProgramLoop toks fuel 0 with
  | ok v => exact .inl ⟨v.1, rfl⟩
  | error e =>
    cases e with
    | parseError => exact absurd h (parseProgramLoop_no_parseError toks fuel 0)
    | outOfFuel => exact .inr rfl

/-! ## Symbol-table lemmas (claims C1 and C10) -/

/-- Redirecting a bound name (`var->second = newAlloca`) makes it
resolve to the new slot. -/
theorem rebind_lookup (sc : List (String × Nat)) (name : String)
    (slot : Nat) (h : (sc.lookup name).isSome) :
    (rebind sc name slot).lookup name = some slot := by
  induction sc with
  | nil => simp [List.lookup] at h
  | cons p rest ih =>
    obtain ⟨k, v⟩ := p
    by_cases hk : k = name
    · subst hk
      simp only [rebind, if_pos rfl]
      simp [List.lookup]
    · have hbeq : (name == k) = false := by
        simp [Ne.symm hk]
      simp only [rebind, if_neg hk]
      simp only [List.lookup, hbeq]
      apply ih
      simpa [List.lookup, hbeq] using h

/-- Scopes that do not bind a name are transparent to the
innermost-to-outermost search. -/
theorem findSlot_append (extra scopes : List Scope) (name : String)
    (h : ∀ sc ∈ extra, sc.lookup name = none) :
    findSlot (extra ++ scopes) name = findSlot scopes name := by
  induction extra with
  | nil => rfl
  | cons sc rest ih =>
    simp only [List.cons_append, findSlot, h sc (by simp)]
    exact ih (fun sc2 hm => h sc2 (by simp [hm]))

/-- When no scope binds the name, the scope walk of `setVariable`
falls through. -/
theorem setVarScopes_not_found (st : CGState) (name : String)
    (vty : LType) (scopes : List Scope)
    (h : findSlot scopes name = none) :
    setVarScopes st name vty scopes = none := by
  induction scopes with
  | nil => rfl
  | cons sc rest ih =>
    cases hl : sc.lookup name with
    | some slot => simp [findSlot, hl] at h
    | none =>
      have h2 : findSlot rest name = none := by
        simpa [findSlot, hl] using h
      simp [setVarScopes, hl, ih h2]

/-- The scope walk of `setVariable` on a bound name: a type match
stores into the existing slot and leaves the state alone; a mismatch
allocates the fresh slot `st.nextSlot` (of the value's type, in the
current function's entry block) and redirects the binding to it. -/
theorem setVarScopes_found (st : CGState) (name : String) (vty : LType) :
    ∀ scopes slot0, findSlot scopes name = some slot0 →
      (st.slotTy slot0 = some vty →
        setVarScopes st name vty scopes =
          some (scopes, st, .storeExisting slot0)) ∧
      (st.slotTy slot0 ≠ some vty →
        ∃ scopes1,
          setVarScopes st name vty scopes =
            some (scopes1,
              (createEntryBlockAlloca st st.currentFunction vty).2,
              .storeFresh st.nextSlot) ∧
          findSlot scopes1 name = some st.nextSlot) := by
  intro scopes
  induction scopes with
  | nil => intro slot0 h; simp [findSlot] at h
  | cons sc rest ih =>
    intro slot0 h
    cases hl : sc.lookup name with
    | some slot1 =>
      have hs : slot1 = slot0 := by simpa [findSlot, hl] using h
      subst hs
      constructor
      · intro hty
        simp [setVarScopes, hl, hty]
      · intro hty
        refine ⟨rebind sc name st.nextSlot :: rest, ?_, ?_⟩
        · simp [setVarScopes, hl, hty, createEntryBlockAlloca]
        · simp [findSlot, rebind_lookup sc name st.nextSlot (by simp [hl])]
    | none =>
      have h2 : findSlot rest name = some slot0 := by
        simpa [findSlot, hl] using h
      obtain ⟨ha, hb⟩ := ih slot0 h2
      constructor
      · intro hty
        simp [setVarScopes, hl, ha hty]
      · intro hty
        obtain ⟨scopes1, hs1, hs2⟩ := hb hty
        exact ⟨sc :: scopes1, by simp [setVarScopes, hl, hs1],
          by simp [findSlot, hl, hs2]⟩

/-! ## Claim C1 -/

/-- C1: for a name bound in some scope, `setVariable(n, v)` stores in
place when `typeOf(v)` matches the slot's allocated type, and
otherwise allocates a fresh slot of `typeOf(v)` (registered, via
`createEntryBlockAlloca`, in the current function's entry block) and
redirects the symbol-table entry to it; consequently a `getVariable(n)`
performed afterwards — also from any descendant scopes that do not
shadow `n` — returns a load whose type is `typeOf(v)`. -/
theorem C1_setVariable_getVariable (st : CGState) (name : String)
    (vty : LType) (slot0 : Nat)
    (hbound : findSlot st.scopes name = some slot0)
    (extra : List Scope)
    (hextra : ∀ sc ∈ extra, sc.lookup name = none) :
    (st.slotTy slot0 = some vty →
      setVariable st name vty = (st, .storeExisting slot0)) ∧
    (st.slotTy slot0 ≠ some vty →
      (setVariable st name vty).2 = .storeFresh st.nextSlot ∧
      (setVariable st name vty).1.slots.lookup st.nextSlot =
        some ⟨vty, st.currentFunction⟩ ∧
      findSlot (setVariable st name vty).1.scopes name =
        some st.nextSlot) ∧
    ∃ slot1,
      getVariable
        { (setVariable st name vty).1 with
          scopes := extra ++ (setVariable st name vty).1.scopes } name =
        some (vty, slot1) := by
  obtain ⟨ha, hb⟩ := setVarScopes_found st name vty st.scopes slot0 hbound
  by_cases hty : st.slotTy slot0 = some vty
  · refine ⟨fun _ => ?_, fun hcon => absurd hty hcon, ⟨slot0, ?_⟩⟩
    · simp [setVariable, ha hty]
    · have hty2 : (st.slots.lookup slot0).map SlotInfo.ty = some vty := hty
      simp only [setVariable, ha hty]
      simp [getVariable, findSlot_append extra st.scopes name hextra,
        hbound, CGState.slotTy, hty2]
  · obtain ⟨scopes1, hs1, hs2⟩ := hb hty
    refine ⟨fun hcon => absurd hcon hty, fun _ => ⟨?_, ?_, ?_⟩,
      ⟨st.nextSlot, ?_⟩⟩
    · simp [setVariable, hs1]
    · simp [setVariable, hs1, createEntryBlockAlloca, List.lookup]
    · simp [setVariable, hs1, hs2]
    · simp only [setVariable, hs1]
      simp [getVariable, findSlot_append extra scopes1 name hextra, hs2,
        CGState.slotTy, createEntryBlockAlloca, List.lookup]

/-- Witness for C1: in a state binding `x` to an `f64` slot, storing a
`ptr` value redirects `x` to the fresh slot 1, and a load of `x` from
a descendant scope yields type `ptr`. -/
theorem C1_witness :
    (setVariable c1State "x" .ptr).2 = .storeFresh 1 ∧
    ∃ slot1,
      getVariable
        { (setVariable c1State "x" .ptr).1 with
          scopes := [[]] ++ (setVariable c1State "x" .ptr).1.scopes } "x" =
        some (.ptr, slot1) := by
  have h := C1_setVariable_getVariable c1State "x" .ptr 0 (by decide)
    [[]] (by decide)
  exact ⟨(h.2.1 (by decide)).1, h.2.2⟩

/-! ## Claim C10 -/

/-- C10: assigning to a name bound in no scope raises no
`UndefinedVariable` error — the assignment visitor calls `setVariable`
(not `getVariable`) and contains no throw: a fresh entry-block slot of
the value's type is created in the current function, registered in the
innermost scope, the value stored, and the value pushed as the
expression's result.  A subsequent identifier load then finds the
variable (contrast `visitIdentifier`, which throws for unbound
names). -/
theorem C10_assign_undeclared (st : CGState) (name : String)
    (vty : LType) (hunbound : findSlot st.scopes name = none)
    (f : Nat) (hfun : st.currentFunction = some f)
    (sc : Scope) (rest : List Scope) (hscopes : st.scopes = sc :: rest) :
    visitAssignment st name vty =
      ({ st with
          slots := (st.nextSlot, ⟨vty, some f⟩) :: st.slots
          nextSlot := st.nextSlot + 1
          scopes := ((name, st.nextSlot) :: sc) :: rest },
        .storeFresh st.nextSlot, vty) ∧
    getVariable (visitAssignment st name vty).1 name =
      some (vty, st.nextSlot) ∧
    visitIdentifier (visitAssignment st name vty).1 name =
      .ok (vty, st.nextSlot) := by
  have hnf : setVarScopes st name vty (sc :: rest) = none := by
    rw [← hscopes]
    exact setVarScopes_not_found _ _ _ _ hunbound
  have hsv : setVariable st name vty =
      ({ st with
          slots := (st.nextSlot, ⟨vty, some f⟩) :: st.slots
          nextSlot := st.nextSlot + 1
          scopes := ((name, st.nextSlot) :: sc) :: rest },
        .storeFresh st.nextSlot) := by
    simp [setVariable, hscopes, hnf, hfun, createEntryBlockAlloca]
  refine ⟨?_, ?_, ?_⟩
  · simp [visitAssignment, hsv]
  · simp [visitAssignment, hsv, getVariable, findSlot, List.lookup,
      CGState.slotTy]
  · simp [visitIdentifier, visitAssignment, hsv, getVariable, findSlot,
      List.lookup, CGState.slotTy]

/-- Witness for C10: assigning `f64` to the unbound `y` inside
function 0. -/
theorem C10_witness :
    visitAssignment c10State "y" .f64 =
      ({ c10State with
          slots := [(0, ⟨.f64, some 0⟩)]
          nextSlot := 1
          scopes := [[("y", 0)]] },
        .storeFresh 0, .f64) ∧
    getVariable (visitAssignment c10State "y" .f64).1 "y" =
      some (.f64, 0) := by
  have h := C10_assign_undeclared c10State "y" .f64 (by decide) 0 rfl
    [] [] rfl
  exact ⟨h.1, h.2.1⟩

/-! ## Lexer lemmas (claims C5 and C9)

The bridge between the lexer and the spec-side content stripper is
built from small characterizations of each scanning loop, combined by
strong induction on the remaining input. -/

/-- `peek` is `getD` with a NUL default: the explicit bounds check in
the C++ returns exactly the `getD` default. -/
theorem lexPeek_eq_getD (s : List Char) (st : LexPos) (k : Nat) :
    lexPeek s st k = s.getD (st.current + k) nulChar := by
  unfold lexPeek
  split
  · rw [List.getD_eq_default _ _ (by omega)]
  · rfl

/-- `advance` in range: returns the current character and steps the
cursor by one. -/
theorem lexAdvance_current (s : List Char) (st : LexPos)
    (h : st.current < s.length) :
    (lexAdvance s st).1 = s.getD st.current nulChar ∧
    (lexAdvance s st).2.current = st.current + 1 := by
  unfold lexAdvance lexAtEnd
  simp only [decide_eq_true_eq, if_neg (by omega : ¬ s.length ≤ st.current)]
  split <;> exact ⟨rfl, rfl⟩

/-- `advance` at end of input: a no-op returning NUL. -/
theorem lexAdvance_atEnd (s : List Char) (st : LexPos)
    (h : s.length ≤ st.current) :
    lexAdvance s st = (nulChar, st) := by
  unfold lexAdvance lexAtEnd
  simp [h]

/-- `advance` never moves the cursor backwards and by at most one. -/
theorem lexAdvance_le (s : List Char) (st : LexPos) :
    st.current ≤ (lexAdvance s st).2.current ∧
    (lexAdvance s st).2.current ≤ st.current + 1 := by
  unfold lexAdvance lexAtEnd
  split
  · simp
  · split <;> simp

/-- The line-comment end scan never moves backwards. -/
theorem skipToNewline_ge (s : List Char) :
    ∀ fuel pos, pos ≤ skipToNewline s fuel pos := by
  intro fuel
  induction fuel with
  | zero => intro pos; simp [skipToNewline]
  | succ n ih =>
    intro pos
    rw [skipToNewline]
    split
    · exact le_trans (by omega) (ih (pos + 1))
    · exact le_refl pos

/-- The block-comment end scan never moves backwards. -/
theorem skipToBlockEnd_ge (s : List Char) :
    ∀ fuel pos, pos ≤ skipToBlockEnd s fuel pos := by
  intro fuel
  induction fuel with
  | zero => intro pos; simp [skipToBlockEnd]
  | succ n ih =>
    intro pos
    rw [skipToBlockEnd]
    split
    · exact le_refl pos
    · split
      · omega
      · exact le_trans (by omega) (ih (pos + 1))

/-- Any two sufficient fuels give the same line-comment end. -/
theorem skipToNewline_congr (s : List Char) :
    ∀ f1 f2 pos, s.length - pos < f1 → s.length - pos < f2 →
      skipToNewline s f1 pos = skipToNewline s f2 pos := by
  intro f1
  induction f1 with
  | zero => intro f2 pos h1; omega
  | succ n ih =>
    intro f2 pos h1 h2
    cases f2 with
    | zero => omega
    | succ m =>
      rw [skipToNewline, skipToNewline]
      split
      · next h =>
          exact ih m (pos + 1) (by omega) (by omega)
      · rfl

/-- Any two sufficient fuels give the same block-comment end. -/
theorem skipToBlockEnd_congr (s : List Char) :
    ∀ f1 f2 pos, s.length - pos < f1 → s.length - pos < f2 →
      skipToBlockEnd s f1 pos = skipToBlockEnd s f2 pos := by
  intro f1
  induction f1 with
  | zero => intro f2 pos h1; omega
  | succ n ih =>
    intro f2 pos h1 h2
    cases f2 with
    | zero => omega
    | succ m =>
      rw [skipToBlockEnd, skipToBlockEnd]
      split
      · rfl
      · next h =>
          split
          · rfl
          · exact ih m (pos + 1) (by omega) (by omega)

/-- Any two sufficient fuels extract the same content. -/
theorem contentAux_congr (s : List Char) :
    ∀ f1 f2 pos, s.length - pos < f1 → s.length - pos < f2 →
      contentAux s f1 pos = contentAux s f2 pos := by
  intro f1
  induction f1 with
  | zero => intro f2 pos h1; omega
  | succ n ih =>
    intro f2 pos h1 h2
    cases f2 with
    | zero => omega
    | succ m =>
      rw [contentAux, contentAux]
      split
      · rfl
      · next hpos =>
          split
          · exact ih m (pos + 1) (by omega) (by omega)
          · split
            · next hc =>
                have hge := skipToNewline_ge s (s.length + 1) (pos + 2)
                exact ih m _ (by omega) (by omega)
            · split
              · next hc =>
                  have hge := skipToBlockEnd_ge s (s.length + 1) (pos + 2)
                  exact ih m _ (by omega) (by omega)
              · exact congrArg _ (ih m (pos + 1) (by omega) (by omega))

/-- The canonical fuel is always sufficient. -/
theorem contentAux_eq_contentFrom (s : List Char) (f pos : Nat)
    (h : s.length - pos < f) :
    contentAux s f pos = contentFrom s pos :=
  contentAux_congr s f (s.length + 1) pos h (by omega)

/-- Content at or past the end of the source is empty. -/
theorem contentFrom_atEnd (s : List Char) (pos : Nat)
    (h : s.length ≤ pos) : contentFrom s pos = [] := by
  unfold contentFrom
  rw [contentAux]
  simp [h]

/-- A whitespace character is discarded. -/
theorem contentFrom_ws (s : List Char) (pos : Nat) (h : pos < s.length)
    (hw : isWsChar (s.getD pos nulChar) = true) :
    contentFrom s pos = contentFrom s (pos + 1) := by
  unfold contentFrom
  rw [contentAux]
  simp only [if_neg (by omega : ¬ s.length ≤ pos), hw, if_pos]
  exact contentAux_eq_contentFrom s _ _ (by omega)

/-- A `//` opens a line comment: content resumes at the next LF. -/
theorem contentFrom_lineComment (s : List Char) (pos : Nat)
    (h : pos < s.length) (hc : s.getD pos nulChar = '/')
    (hn : s.getD (pos + 1) nulChar = '/') :
    contentFrom s pos =
      contentFrom s (skipToNewline s (s.length + 1) (pos + 2)) := by
  unfold contentFrom
  rw [contentAux]
  have hnw : isWsChar (s.getD pos nulChar) = false := by rw [hc]; rfl
  simp only [if_neg (by omega : ¬ s.length ≤ pos), hnw, Bool.false_eq_true,
    if_false, hc, hn, and_self, if_pos]
  have hge := skipToNewline_ge s (s.length + 1) (pos + 2)
  exact contentAux_eq_contentFrom s _ _ (by omega)

/-- A `/*` opens a block comment: content resumes after the closing
`*/`. -/
theorem contentFrom_blockComment (s : List Char) (pos : Nat)
    (h : pos < s.length) (hc : s.getD pos nulChar = '/')
    (hn : s.getD (pos + 1) nulChar = '*') :
    contentFrom s pos =
      contentFrom s (skipToBlockEnd s (s.length + 1) (pos + 2)) := by
  unfold contentFrom
  rw [contentAux]
  have hnw : isWsChar (s.getD pos nulChar) = false := by rw [hc]; rfl
  have hns : ¬ (s.getD pos nulChar = '/' ∧ s.getD (pos + 1) nulChar = '/') := by
    rw [hc, hn]; simp
  simp only [if_neg (by omega : ¬ s.length ≤ pos), hnw, Bool.false_eq_true,
    if_false, if_neg hns, hc, hn, and_self, if_pos]
  have hge := skipToBlockEnd_ge s (s.length + 1) (pos + 2)
  exact contentAux_eq_contentFrom s _ _ (by omega)

/-- Any other character is kept. -/
theorem contentFrom_plain (s : List Char) (pos : Nat) (h : pos < s.length)
    (hw : isWsChar (s.getD pos nulChar) = false)
    (hns : ¬ (s.getD pos nulChar = '/' ∧
      (s.getD (pos + 1) nulChar = '/' ∨ s.getD (pos + 1) nulChar = '*'))) :
    contentFrom s pos = s.getD pos nulChar :: contentFrom s (pos + 1) := by
  unfold contentFrom
  rw [contentAux]
  have h1 : ¬ (s.getD pos nulChar = '/' ∧ s.getD (pos + 1) nulChar = '/') :=
    fun hx => hns ⟨hx.1, .inl hx.2⟩
  have h2 : ¬ (s.getD pos nulChar = '/' ∧ s.getD (pos + 1) nulChar = '*') :=
    fun hx => hns ⟨hx.1, .inr hx.2⟩
  simp only [if_neg (by omega : ¬ s.length ≤ pos), hw, Bool.false_eq_true,
    if_false, if_neg h1, if_neg h2]
  exact congrArg _ (contentAux_eq_contentFrom s _ _ (by omega))

/-- A run of plain characters is kept verbatim: the content from `pos`
is the substring up to `stop` followed by the content from `stop`. -/
theorem contentFrom_chunk (s : List Char) :
    ∀ n pos, pos + n ≤ s.length →
      (∀ i, pos ≤ i → i < pos + n → plainChar (s.getD i nulChar)) →
      contentFrom s pos =
        extractChars s pos (pos + n) ++ contentFrom s (pos + n) := by
  intro n
  induction n with
  | zero => intro pos hle hpl; simp [extractChars]
  | succ m ih =>
    intro pos hle hpl
    have hpos : pos < s.length := by omega
    obtain ⟨hw, hsl⟩ := hpl pos (le_refl pos) (by omega)
    have hstep : contentFrom s pos =
        s.getD pos nulChar :: contentFrom s (pos + 1) :=
      contentFrom_plain s pos hpos hw (fun hx => hsl hx.1)
    have hrest := ih (pos + 1) (by omega)
      (fun i h1 h2 => hpl i (by omega) (by omega))
    rw [hstep, hrest]
    have hext : extractChars s pos (pos + (m + 1)) =
        s.getD pos nulChar :: extractChars s (pos + 1) (pos + 1 + m) := by
      unfold extractChars
      rw [List.drop_eq_getElem_cons hpos,
        List.getD_eq_getElem s nulChar hpos]
      simp only [show pos + (m + 1) - pos = m + 1 by omega,
        show pos + 1 + m - (pos + 1) = m by omega, List.take_succ_cons]
    rw [hext]
    simp [show pos + 1 + m = pos + (m + 1) by omega]

/-- Digits are kept by the stripper. -/
theorem isDigitC_plain (c : Char) (h : isDigitC c = true) : plainChar c := by
  constructor
  · by_contra hw
    rw [Bool.not_eq_false] at hw
    unfold isWsChar at hw
    rw [decide_eq_true_eq] at hw
    rcases hw with h1 | h1 | h1 | h1 <;> (subst h1; exact absurd h (by decide))
  · intro hc
    subst hc
    exact absurd h (by decide)

/-- Identifier characters are kept by the stripper. -/
theorem isAlphaNumericC_plain (c : Char) (h : isAlphaNumericC c = true) :
    plainChar c := by
  constructor
  · by_contra hw
    rw [Bool.not_eq_false] at hw
    unfold isWsChar at hw
    rw [decide_eq_true_eq] at hw
    rcases hw with h1 | h1 | h1 | h1 <;> (subst h1; exact absurd h (by decide))
  · intro hc
    subst hc
    exact absurd h (by decide)

/-- A character whose class test succeeds is a real character of the
source: the NUL default fails `isDigitC`. -/
theorem isDigitC_getD_lt (s : List Char) (pos : Nat)
    (h : isDigitC (s.getD pos nulChar) = true) : pos < s.length := by
  by_contra hx
  rw [List.getD_eq_default _ _ (by omega)] at h
  exact absurd h (by decide)

/-- The NUL default fails `isAlphaNumericC`. -/
theorem isAlphaNumericC_getD_lt (s : List Char) (pos : Nat)
    (h : isAlphaNumericC (s.getD pos nulChar) = true) : pos < s.length := by
  by_contra hx
  rw [List.getD_eq_default _ _ (by omega)] at h
  exact absurd h (by decide)

/-- The NUL default fails `isWsChar`. -/
theorem isWsChar_getD_lt (s : List Char) (pos : Nat)
    (h : isWsChar (s.getD pos nulChar) = true) : pos < s.length := by
  by_contra hx
  rw [List.getD_eq_default _ _ (by omega)] at h
  exact absurd h (by decide)

/-- The digit loop of `scanNumber`: runs to the first non-digit,
passing only digits, and stays in bounds. -/
theorem skipDigits_spec (s : List Char) :
    ∀ fuel st, s.length - st.current < fuel →
      st.current ≤ (skipDigits s fuel st).current ∧
      (∀ i, st.current ≤ i → i < (skipDigits s fuel st).current →
        isDigitC (s.getD i nulChar) = true) ∧
      isDigitC (lexPeek s (skipDigits s fuel st) 0) = false ∧
      (st.current ≤ s.length → (skipDigits s fuel st).current ≤ s.length) := by
  intro fuel
  induction fuel with
  | zero => intro st h; omega
  | succ n ih =>
    intro st h
    rw [skipDigits]
    split
    · next hd =>
        rw [lexPeek_eq_getD] at hd
        have hin : st.current < s.length := isDigitC_getD_lt s _ hd
        have hadv : (lexAdvance s st).2.current = st.current + 1 :=
          (lexAdvance_current s st hin).2
        obtain ⟨ih1, ih2, ih3, ih4⟩ :=
          ih (lexAdvance s st).2 (by rw [hadv]; omega)
        refine ⟨by omega, ?_, ih3, fun _ => ih4 (by omega)⟩
        intro i hi1 hi2
        rcases Nat.eq_or_lt_of_le hi1 with heq | hlt
        · subst heq; simpa using hd
        · exact ih2 i (by omega) hi2
    · next hd =>
        rw [Bool.not_eq_true] at hd
        exact ⟨le_refl _, fun i h1 h2 => by omega, hd, fun hle => hle⟩

/-- The identifier loop of `scanIdentifier`: runs to the first
non-identifier character, passing only identifier characters, in
bounds. -/
theorem skipAlphaNum_spec (s : List Char) :
    ∀ fuel st, s.length - st.current < fuel →
      st.current ≤ (skipAlphaNum s fuel st).current ∧
      (∀ i, st.current ≤ i → i < (skipAlphaNum s fuel st).current →
        isAlphaNumericC (s.getD i nulChar) = true) ∧
      isAlphaNumericC (lexPeek s (skipAlphaNum s fuel st) 0) = false ∧
      (st.current ≤ s.length →
        (skipAlphaNum s fuel st).current ≤ s.length) := by
  intro fuel
  induction fuel with
  | zero => intro st h; omega
  | succ n ih =>
    intro st h
    rw [skipAlphaNum]
    split
    · next hd =>
        rw [lexPeek_eq_getD] at hd
        have hin : st.current < s.length := isAlphaNumericC_getD_lt s _ hd
        have hadv : (lexAdvance s st).2.current = st.current + 1 :=
          (lexAdvance_current s st hin).2
        obtain ⟨ih1, ih2, ih3, ih4⟩ :=
          ih (lexAdvance s st).2 (by rw [hadv]; omega)
        refine ⟨by omega, ?_, ih3, fun _ => ih4 (by omega)⟩
        intro i hi1 hi2
        rcases Nat.eq_or_lt_of_le hi1 with heq | hlt
        · subst heq; simpa using hd
        · exact ih2 i (by omega) hi2
    · next hd =>
        rw [Bool.not_eq_true] at hd
        exact ⟨le_refl _, fun i h1 h2 => by omega, hd, fun hle => hle⟩

/-- `scanNumber` started on a digit: produces a `NUMBER` token whose
lexeme is exactly the consumed substring, advances, stays in bounds,
and consumes only stripper-kept characters. -/
theorem scanNumber_spec (s : List Char) (st : LexPos)
    (hd : isDigitC (s.getD st.current nulChar) = true) :
    (scanNumber s st).1.type = .NUMBER ∧
    (scanNumber s st).1.value =
      extractChars s st.current (scanNumber s st).2.current ∧
    st.current < (scanNumber s st).2.current ∧
    (scanNumber s st).2.current ≤ s.length ∧
    (∀ i, st.current ≤ i → i < (scanNumber s st).2.current →
      plainChar (s.getD i nulChar)) := by
  have hin : st.current < s.length := isDigitC_getD_lt s _ hd
  have hadv : (lexAdvance s st).2.current = st.current + 1 :=
    (lexAdvance_current s st hin).2
  obtain ⟨d1, d2, d3, d4⟩ :=
    skipDigits_spec s (s.length + 1) (lexAdvance s st).2 (by omega)
  by_cases hdot :
      lexPeek s (skipDigits s (s.length + 1) (lexAdvance s st).2) 0 = '.' ∧
      isDigitC (lexPeek s (skipDigits s (s.length + 1)
        (lexAdvance s st).2) 1) = true
  · have hdotin :
        (skipDigits s (s.length + 1) (lexAdvance s st).2).current
          < s.length := by
      by_contra hx
      have hdot1 := hdot.1
      rw [lexPeek_eq_getD, List.getD_eq_default _ _ (by omega)] at hdot1
      exact absurd hdot1 (by decide)
    have hadv2 :
        (lexAdvance s (skipDigits s (s.length + 1)
          (lexAdvance s st).2)).2.current =
        (skipDigits s (s.length + 1) (lexAdvance s st).2).current + 1 :=
      (lexAdvance_current s _ hdotin).2
    obtain ⟨e1, e2, e3, e4⟩ := skipDigits_spec s (s.length + 1)
      (lexAdvance s (skipDigits s (s.length + 1) (lexAdvance s st).2)).2
      (by omega)
    have hres : scanNumber s st =
        (⟨.NUMBER, extractChars s st.current
            (skipDigits s (s.length + 1)
              (lexAdvance s (skipDigits s (s.length + 1)
                (lexAdvance s st).2)).2).current,
          st.line, st.column⟩,
         skipDigits s (s.length + 1)
           (lexAdvance s (skipDigits s (s.length + 1)
             (lexAdvance s st).2)).2) := by
      unfold scanNumber
      dsimp only
      rw [if_pos hdot]
    rw [hres]
    dsimp only
    refine ⟨rfl, rfl, by omega, e4 (by omega), ?_⟩
    intro i hi1 hi2
    rcases Nat.eq_or_lt_of_le hi1 with heq | hlt
    · subst heq; exact isDigitC_plain _ hd
    · by_cases hcase :
        i < (skipDigits s (s.length + 1) (lexAdvance s st).2).current
      · exact isDigitC_plain _ (d2 i (by omega) hcase)
      · rcases Nat.eq_or_lt_of_le (Nat.le_of_not_lt hcase) with heq2 | hlt2
        · have hdot1 := hdot.1
          rw [lexPeek_eq_getD, Nat.add_zero] at hdot1
          rw [← heq2, hdot1]
          exact ⟨by decide, by decide⟩
        · exact isDigitC_plain _ (e2 i (by omega) hi2)
  · have hres : scanNumber s st =
        (⟨.NUMBER, extractChars s st.current
            (skipDigits s (s.length + 1) (lexAdvance s st).2).current,
          st.line, st.column⟩,
         skipDigits s (s.length + 1) (lexAdvance s st).2) := by
      unfold scanNumber
      dsimp only
      rw [if_neg hdot]
    rw [hres]
    dsimp only
    refine ⟨rfl, rfl, by omega, d4 (by omega), ?_⟩
    intro i hi1 hi2
    rcases Nat.eq_or_lt_of_le hi1 with heq | hlt
    · subst heq; exact isDigitC_plain _ hd
    · exact isDigitC_plain _ (d2 i (by omega) hi2)

set_option maxHeartbeats 1000000 in
/-- The keyword table never yields the EOF kind. -/
theorem keywordType_ne_eof (v : List Char) :
    keywordType v ≠ .END_OF_FILE := by
  intro h
  unfold keywordType at h
  repeat' split at h
  all_goals exact TokenType.noConfusion h

/-- `scanIdentifier` started on an identifier head: produces a
non-EOF token whose lexeme is exactly the consumed substring,
advances, stays in bounds, and consumes only stripper-kept
characters. -/
theorem scanIdentifier_spec (s : List Char) (st : LexPos)
    (hd : isAlphaNumericC (s.getD st.current nulChar) = true) :
    (scanIdentifier s st).1.type ≠ .END_OF_FILE ∧
    (scanIdentifier s st).1.value =
      extractChars s st.current (scanIdentifier s st).2.current ∧
    st.current < (scanIdentifier s st).2.current ∧
    (scanIdentifier s st).2.current ≤ s.length ∧
    (∀ i, st.current ≤ i → i < (scanIdentifier s st).2.current →
      plainChar (s.getD i nulChar)) := by
  have hin : st.current < s.length := isAlphaNumericC_getD_lt s _ hd
  have hadv : (lexAdvance s st).2.current = st.current + 1 :=
    (lexAdvance_current s st hin).2
  obtain ⟨d1, d2, d3, d4⟩ :=
    skipAlphaNum_spec s (s.length + 1) (lexAdvance s st).2 (by omega)
  refine ⟨keywordType_ne_eof _, rfl, by
      unfold scanIdentifier; dsimp only; omega,
    by unfold scanIdentifier; dsimp only; exact d4 (by omega), ?_⟩
  unfold scanIdentifier
  dsimp only
  intro i hi1 hi2
  rcases Nat.eq_or_lt_of_le hi1 with heq | hlt
  · subst heq; exact isAlphaNumericC_plain _ hd
  · exact isAlphaNumericC_plain _ (d2 i (by omega) hi2)

/-- `advance` keeps the cursor in bounds. -/
theorem lexAdvance_bound (s : List Char) (st : LexPos)
    (h : st.current ≤ s.length) :
    (lexAdvance s st).2.current ≤ s.length := by
  unfold lexAdvance lexAtEnd
  split
  · simpa using h
  · next hx =>
      rw [decide_eq_true_eq] at hx
      split <;> (dsimp only; omega)

/-- Whitespace skipping: monotone, ends on a non-whitespace character,
and is invisible to the content stripper. -/
theorem skipWhitespace_spec (s : List Char) :
    ∀ fuel st, s.length - st.current < fuel →
      st.current ≤ (skipWhitespace s fuel st).current ∧
      isWsChar (lexPeek s (skipWhitespace s fuel st) 0) = false ∧
      contentFrom s st.current =
        contentFrom s (skipWhitespace s fuel st).current := by
  intro fuel
  induction fuel with
  | zero => intro st h; omega
  | succ n ih =>
    intro st h
    rw [skipWhitespace]
    split
    · next hw =>
        rw [lexPeek_eq_getD, Nat.add_zero] at hw
        have hin : st.current < s.length := isWsChar_getD_lt s _ hw
        have hadv : (lexAdvance s st).2.current = st.current + 1 :=
          (lexAdvance_current s st hin).2
        obtain ⟨ih1, ih2, ih3⟩ :=
          ih (lexAdvance s st).2 (by rw [hadv]; omega)
        refine ⟨by omega, ih2, ?_⟩
        rw [contentFrom_ws s st.current hin hw, ← hadv]
        exact ih3
    · next hw =>
        rw [Bool.not_eq_true] at hw
        exact ⟨le_refl _, hw, rfl⟩

/-- The lexer's line-comment skip lands exactly where the stripper's
newline scan does (same fuel on both sides). -/
theorem skipLineComment_eq (s : List Char) :
    ∀ fuel st,
      (skipLineComment s fuel st).current = skipToNewline s fuel st.current := by
  intro fuel
  induction fuel with
  | zero => intro st; rfl
  | succ n ih =>
    intro st
    rw [skipLineComment, skipToNewline]
    by_cases hc : st.current < s.length ∧ s.getD st.current nulChar ≠ '\n'
    · have hlex : lexPeek s st 0 ≠ '\n' ∧ ¬ lexAtEnd s st = true := by
        constructor
        · rw [lexPeek_eq_getD, Nat.add_zero]; exact hc.2
        · unfold lexAtEnd; rw [decide_eq_true_eq]; omega
      rw [if_pos hlex, if_pos hc, ih,
        (lexAdvance_current s st hc.1).2]
    · have hlex : ¬ (lexPeek s st 0 ≠ '\n' ∧ ¬ lexAtEnd s st = true) := by
        intro hx
        apply hc
        constructor
        · have := hx.2
          unfold lexAtEnd at this
          rw [decide_eq_true_eq] at this
          omega
        · rw [lexPeek_eq_getD, Nat.add_zero] at hx
          exact hx.1
      rw [if_neg hlex, if_neg hc]

/-- The lexer's block-comment skip lands exactly where the stripper's
`*/` scan does (same fuel on both sides). -/
theorem skipBlockComment_eq (s : List Char) :
    ∀ fuel st,
      (skipBlockComment s fuel st).current =
        skipToBlockEnd s fuel st.current := by
  intro fuel
  induction fuel with
  | zero => intro st; rfl
  | succ n ih =>
    intro st
    rw [skipBlockComment, skipToBlockEnd]
    by_cases hend : s.length ≤ st.current
    · rw [if_pos (by unfold lexAtEnd; rw [decide_eq_true_eq]; exact hend),
        if_pos hend]
    · rw [if_neg (by unfold lexAtEnd; rw [decide_eq_true_eq]; exact hend),
        if_neg hend]
      by_cases hstar : s.getD st.current nulChar = '*' ∧
          s.getD (st.current + 1) nulChar = '/'
      · have hlex : lexPeek s st 0 = '*' ∧ lexPeek s st 1 = '/' := by
          rw [lexPeek_eq_getD, lexPeek_eq_getD, Nat.add_zero]
          exact hstar
        rw [if_pos hlex, if_pos hstar]
        have h1 : (lexAdvance s st).2.current = st.current + 1 :=
          (lexAdvance_current s st (by omega)).2
        have hin2 : st.current + 1 < s.length := by
          by_contra hx
          have h2s := hstar.2
          rw [List.getD_eq_default s nulChar
            (show s.length ≤ st.current + 1 by omega)] at h2s
          exact absurd h2s (by decide)
        have h2 : (lexAdvance s (lexAdvance s st).2).2.current =
            st.current + 2 := by
          rw [(lexAdvance_current s (lexAdvance s st).2 (by omega)).2, h1]
        exact h2
      · have hlex : ¬ (lexPeek s st 0 = '*' ∧ lexPeek s st 1 = '/') := by
          rw [lexPeek_eq_getD, lexPeek_eq_getD, Nat.add_zero]
          exact hstar
        rw [if_neg hlex, if_neg hstar, ih,
          (lexAdvance_current s st (by omega)).2]

/-- The string-body loop only moves forward and stays in bounds. -/
theorem scanStringLoop_le (s : List Char) (q : Char) :
    ∀ fuel st,
      st.current ≤ (scanStringLoop s q fuel st).2.current ∧
      (st.current ≤ s.length →
        (scanStringLoop s q fuel st).2.current ≤ s.length) := by
  intro fuel
  induction fuel with
  | zero => intro st; exact ⟨le_refl _, fun h => h⟩
  | succ n ih =>
    intro st
    rw [scanStringLoop]
    split
    · split
      · have ha1 := lexAdvance_le s st
        have ha2 := lexAdvance_le s (lexAdvance s st).2
        obtain ⟨ihl, ihb⟩ := ih (lexAdvance s (lexAdvance s st).2).2
        refine ⟨by dsimp only; omega, fun hb => ?_⟩
        dsimp only
        exact ihb (lexAdvance_bound s _ (lexAdvance_bound s _ hb))
      · have ha1 := lexAdvance_le s st
        obtain ⟨ihl, ihb⟩ := ih (lexAdvance s st).2
        refine ⟨by dsimp only; omega, fun hb => ?_⟩
        dsimp only
        exact ihb (lexAdvance_bound s _ hb)
    · exact ⟨le_refl _, fun h => h⟩

/-- `scanString` consumes at least the opening quote, stays in
bounds, and never yields an EOF token. -/
theorem scanString_progress (s : List Char) (st : LexPos)
    (h : st.current < s.length) :
    st.current < (scanString s st).2.current ∧
    (scanString s st).2.current ≤ s.length ∧
    (scanString s st).1.type ≠ .END_OF_FILE := by
  have hadv : (lexAdvance s st).2.current = st.current + 1 :=
    (lexAdvance_current s st h).2
  obtain ⟨hl, hb⟩ := scanStringLoop_le s (s.getD st.current nulChar)
    (s.length + 1) (lexAdvance s st).2
  have hb2 := hb (by omega)
  have ha2 := lexAdvance_le s
    (scanStringLoop s (s.getD st.current nulChar) (s.length + 1)
      (lexAdvance s st).2).2
  have ha3 := lexAdvance_bound s
    (scanStringLoop s (s.getD st.current nulChar) (s.length + 1)
      (lexAdvance s st).2).2 hb2
  unfold scanString
  dsimp only
  split <;> (dsimp only; refine ⟨by omega, by omega, by simp⟩)

/-- `nextToken` progress, for arbitrary sources: the cursor never
moves backwards; an EOF token is produced exactly from the end of the
input (leaving the cursor there); any other token consumes at least
one character starting from a position inside the source. -/
theorem nextToken_progress (s : List Char) :
    ∀ fuel st, s.length - st.current < fuel →
      st.current ≤ (nextToken s fuel st).2.current ∧
      ((nextToken s fuel st).1.type = .END_OF_FILE →
        s.length ≤ (nextToken s fuel st).2.current) ∧
      ((nextToken s fuel st).1.type ≠ .END_OF_FILE →
        st.current < (nextToken s fuel st).2.current ∧
        st.current < s.length) := by
  intro fuel
  induction fuel with
  | zero => intro st h; omega
  | succ n ih =>
    intro st h
    obtain ⟨w1, w2, w3⟩ := skipWhitespace_spec s (s.length + 1) st (by omega)
    rw [nextToken]
    dsimp only
    by_cases hend : lexAtEnd s (skipWhitespace s (s.length + 1) st) = true
    · rw [if_pos hend]
      unfold lexAtEnd at hend
      rw [decide_eq_true_eq] at hend
      refine ⟨?_, fun _ => ?_, fun hne => absurd rfl hne⟩
      · dsimp only
        omega
      · dsimp only
        omega
    · rw [if_neg hend]
      unfold lexAtEnd at hend
      rw [decide_eq_true_eq] at hend
      have hin : (skipWhitespace s (s.length + 1) st).current < s.length :=
        by omega
      rcases hadv : lexAdvance s (skipWhitespace s (s.length + 1) st)
        with ⟨c, st1⟩
      have hc : c = s.getD (skipWhitespace s (s.length + 1) st).current
          nulChar := by
        have := (lexAdvance_current s _ hin).1
        rw [hadv] at this
        exact this
      have hst1 : st1.current =
          (skipWhitespace s (s.length + 1) st).current + 1 := by
        have := (lexAdvance_current s _ hin).2
        rw [hadv] at this
        exact this
      have hbk : (backUp st1).current =
          (skipWhitespace s (s.length + 1) st).current := by
        unfold backUp
        dsimp only
        omega
      have ha2 := lexAdvance_le s st1
      dsimp only
      -- the scanner branches
      by_cases hdig : isDigitC c = true
      · rw [if_pos hdig]
        obtain ⟨n1, n2, n3, n4, n5⟩ := scanNumber_spec s (backUp st1)
          (by rw [hbk, ← hc]; exact hdig)
        refine ⟨by omega, fun hE => absurd hE (by rw [n1]; decide),
          fun _ => ⟨by omega, by omega⟩⟩
      rw [if_neg hdig]
      by_cases halp : isAlphaC c = true
      · rw [if_pos halp]
        obtain ⟨n1, n2, n3, n4, n5⟩ := scanIdentifier_spec s (backUp st1)
          (by
            rw [hbk, ← hc]
            unfold isAlphaNumericC
            rw [halp]
            rfl)
        refine ⟨by omega, fun hE => absurd hE n1,
          fun _ => ⟨by omega, by omega⟩⟩
      rw [if_neg halp]
      by_cases hq : c = '/'
      · rw [if_pos hq]
        rw [if_neg (by rw [hq]; decide), if_neg (by rw [hq]; decide),
          if_neg (by rw [hq]; decide), if_neg (by rw [hq]; decide),
          if_neg (by rw [hq]; decide), if_neg (by rw [hq]; decide)]
        by_cases hl : lexPeek s st1 0 = '/'
        · rw [if_pos hl]
          have hlc := skipLineComment_eq s (s.length + 1) st1
          have hge := skipToNewline_ge s (s.length + 1) st1.current
          obtain ⟨r1, r2, r3⟩ :=
            ih (skipLineComment s (s.length + 1) st1) (by omega)
          refine ⟨by omega, fun hE => r2 hE, fun hne => ?_⟩
          obtain ⟨q1, _⟩ := r3 hne
          exact ⟨by omega, by omega⟩
        · rw [if_neg hl]
          by_cases hb : lexPeek s st1 0 = '*'
          · rw [if_pos hb]
            have hbc := skipBlockComment_eq s (s.length + 1)
              (lexAdvance s st1).2
            have hge := skipToBlockEnd_ge s (s.length + 1)
              (lexAdvance s st1).2.current
            obtain ⟨r1, r2, r3⟩ :=
              ih (skipBlockComment s (s.length + 1) (lexAdvance s st1).2)
                (by omega)
            refine ⟨by omega, fun hE => r2 hE, fun hne => ?_⟩
            obtain ⟨q1, _⟩ := r3 hne
            exact ⟨by omega, by omega⟩
          · rw [if_neg hb]
            refine ⟨?_, fun hE => TokenType.noConfusion hE,
              fun _ => ⟨?_, by omega⟩⟩ <;> (dsimp only; omega)
      rw [if_neg hq]
      by_cases hs : c = quoteD ∨ c = quoteS
      · obtain ⟨p1, p2, p3⟩ := scanString_progress s (backUp st1)
          (by omega)
        have hgoal :
            st.current ≤ (scanString s (backUp st1)).2.current ∧
            ((scanString s (backUp st1)).1.type = .END_OF_FILE →
              s.length ≤ (scanString s (backUp st1)).2.current) ∧
            ((scanString s (backUp st1)).1.type ≠ .END_OF_FILE →
              st.current < (scanString s (backUp st1)).2.current ∧
              st.current < s.length) :=
          ⟨by omega, fun hE => absurd hE p3,
           fun _ => ⟨by omega, by omega⟩⟩
        rcases hs with hqq | hqq <;> subst hqq <;> exact hgoal
      · -- all remaining branches produce a fixed token and consume
        -- one or two characters
        by_cases hop1 : c = '='
        · rw [if_pos hop1]
          split <;>
            (refine ⟨?_, fun hE => TokenType.noConfusion hE,
              fun _ => ⟨?_, by omega⟩⟩ <;> (dsimp only; omega))
        rw [if_neg hop1]
        by_cases hop2 : c = '!'
        · rw [if_pos hop2]
          split <;>
            (refine ⟨?_, fun hE => TokenType.noConfusion hE,
              fun _ => ⟨?_, by omega⟩⟩ <;> (dsimp only; omega))
        rw [if_neg hop2]
        by_cases hop3 : c = '<'
        · rw [if_pos hop3]
          split <;>
            (refine ⟨?_, fun hE => TokenType.noConfusion hE,
              fun _ => ⟨?_, by omega⟩⟩ <;> (dsimp only; omega))
        rw [if_neg hop3]
        by_cases hop4 : c = '>'
        · rw [if_pos hop4]
          split <;>
            (refine ⟨?_, fun hE => TokenType.noConfusion hE,
              fun _ => ⟨?_, by omega⟩⟩ <;> (dsimp only; omega))
        rw [if_neg hop4]
        by_cases hop5 : c = '&'
        · rw [if_pos hop5]
          split <;>
            (refine ⟨?_, fun hE => TokenType.noConfusion hE,
              fun _ => ⟨?_, by omega⟩⟩ <;> (dsimp only; omega))
        rw [if_neg hop5]
        by_cases hop6 : c = '|'
        · rw [if_pos hop6]
          split <;>
            (refine ⟨?_, fun hE => TokenType.noConfusion hE,
              fun _ => ⟨?_, by omega⟩⟩ <;> (dsimp only; omega))
        rw [if_neg hop6]
        by_cases hop7 : c = '+'
        · rw [if_pos hop7]
          refine ⟨?_, fun hE => TokenType.noConfusion hE,
            fun _ => ⟨?_, by omega⟩⟩ <;> (dsimp only; omega)
        rw [if_neg hop7]
        by_cases hop8 : c = '-'
        · rw [if_pos hop8]
          refine ⟨?_, fun hE => TokenType.noConfusion hE,
            fun _ => ⟨?_, by omega⟩⟩ <;> (dsimp only; omega)
        rw [if_neg hop8]
        by_cases hop9 : c = '*'
        · rw [if_pos hop9]
          refine ⟨?_, fun hE => TokenType.noConfusion hE,
            fun _ => ⟨?_, by omega⟩⟩ <;> (dsimp only; omega)
        rw [if_neg hop9]
        by_cases hop10 : c = '%'
        · rw [if_pos hop10]
          refine ⟨?_, fun hE => TokenType.noConfusion hE,
            fun _ => ⟨?_, by omega⟩⟩ <;> (dsimp only; omega)
        rw [if_neg hop10]
        by_cases hop11 : c = ';'
        · rw [if_pos hop11]
          refine ⟨?_, fun hE => TokenType.noConfusion hE,
            fun _ => ⟨?_, by omega⟩⟩ <;> (dsimp only; omega)
        rw [if_neg hop11]
        by_cases hop12 : c = ','
        · rw [if_pos hop12]
          refine ⟨?_, fun hE => TokenType.noConfusion hE,
            fun _ => ⟨?_, by omega⟩⟩ <;> (dsimp only; omega)
        rw [if_neg hop12]
        by_cases hop13 : c = '.'
        · rw [if_pos hop13]
          refine ⟨?_, fun hE => TokenType.noConfusion hE,
            fun _ => ⟨?_, by omega⟩⟩ <;> (dsimp only; omega)
        rw [if_neg hop13]
        by_cases hop14 : c = '('
        · rw [if_pos hop14]
          refine ⟨?_, fun hE => TokenType.noConfusion hE,
            fun _ => ⟨?_, by omega⟩⟩ <;> (dsimp only; omega)
        rw [if_neg hop14]
        by_cases hop15 : c = ')'
        · rw [if_pos hop15]
          refine ⟨?_, fun hE => TokenType.noConfusion hE,
            fun _ => ⟨?_, by omega⟩⟩ <;> (dsimp only; omega)
        rw [if_neg hop15]
        by_cases hop16 : c = '\x7b'
        · rw [if_pos hop16]
          refine ⟨?_, fun hE => TokenType.noConfusion hE,
            fun _ => ⟨?_, by omega⟩⟩ <;> (dsimp only; omega)
        rw [if_neg hop16]
        by_cases hop17 : c = '\x7d'
        · rw [if_pos hop17]
          refine ⟨?_, fun hE => TokenType.noConfusion hE,
            fun _ => ⟨?_, by omega⟩⟩ <;> (dsimp only; omega)
        rw [if_neg hop17]
        by_cases hop18 : c = '['
        · rw [if_pos hop18]
          refine ⟨?_, fun hE => TokenType.noConfusion hE,
            fun _ => ⟨?_, by omega⟩⟩ <;> (dsimp only; omega)
        rw [if_neg hop18]
        by_cases hop19 : c = ']'
        · rw [if_pos hop19]
          refine ⟨?_, fun hE => TokenType.noConfusion hE,
            fun _ => ⟨?_, by omega⟩⟩ <;> (dsimp only; omega)
        rw [if_neg hop19]
        rw [if_neg hs]
        refine ⟨?_, fun hE => TokenType.noConfusion hE,
          fun _ => ⟨?_, by omega⟩⟩ <;> (dsimp only; omega)

/-- A completed `tokenize` leaves the cursor at the end of the
input. -/
theorem tokenizeAux_final_atEnd (s : List Char) :
    ∀ fuel st, s.length - st.current < fuel →
      s.length ≤ (tokenizeAux s fuel st).2.current := by
  intro fuel
  induction fuel with
  | zero => intro st h; omega
  | succ n ih =>
    intro st h
    obtain ⟨p1, p2, p3⟩ := nextToken_progress s (s.length + 1) st (by omega)
    rw [tokenizeAux]
    simp only [lexNext] at *
    rcases hnt : nextToken s (s.length + 1) st with ⟨tok, st1⟩
    rw [hnt] at p1 p2 p3
    dsimp only at p1 p2 p3 ⊢
    by_cases he : tok.type = .END_OF_FILE
    · rw [if_pos he]
      exact p2 he
    · rw [if_neg he]
      obtain ⟨q1, q2⟩ := p3 he
      exact ih st1 (by omega)

/-- `skipWhitespace` from an at-end state is the identity: `peek`
returns NUL, which is not whitespace. -/
theorem skipWhitespace_atEnd (s : List Char) (st : LexPos)
    (h : s.length ≤ st.current) :
    ∀ fuel, skipWhitespace s fuel st = st := by
  intro fuel
  cases fuel with
  | zero => rfl
  | succ n =>
    rw [skipWhitespace]
    rw [if_neg ?hcond]
    case hcond =>
      rw [lexPeek_eq_getD, List.getD_eq_default s nulChar (by omega)]
      decide

/-- Re-entering `tokenize` from an at-end state returns the lone EOF
token at the final position, leaving the state unchanged. -/
theorem tokenizeFrom_atEnd (s : List Char) (st : LexPos)
    (h : s.length ≤ st.current) :
    tokenizeFrom s st = ([⟨.END_OF_FILE, [], st.line, st.column⟩], st) := by
  have hnt : nextToken s (s.length + 1) st =
      (⟨.END_OF_FILE, [], st.line, st.column⟩, st) := by
    rw [nextToken]
    rw [skipWhitespace_atEnd s st h]
    rw [if_pos (by unfold lexAtEnd; rw [decide_eq_true_eq]; exact h)]
  unfold tokenizeFrom
  rw [show s.length + 2 = (s.length + 1) + 1 from rfl, tokenizeAux]
  simp only [lexNext, hnt, if_true]

/-! ## Claim C9 -/

/-- C9 counterexample: lexing the one-character source `a` and then
re-entering `tokenize` on the same `Lexer` object (whose cursor was
left at the end of the input) yields only the EOF token, not the
two-token stream of the first call. -/
theorem C9_counterexample :
    (tokenize ['a']).1 =
      [⟨.IDENTIFIER, ['a'], 1, 1⟩, ⟨.END_OF_FILE, [], 1, 2⟩] ∧
    (tokenizeFrom ['a'] (tokenize ['a']).2).1 =
      [⟨.END_OF_FILE, [], 1, 2⟩] ∧
    decide ((tokenizeFrom ['a'] (tokenize ['a']).2).1 =
      (tokenize ['a']).1) = false := by
  refine ⟨?_, ?_, ?_⟩ <;> rfl

/-- C9 amended: `tokenize` does not reset the cursor, so re-entering
it after a completed run produces the stream consisting of the single
EOF token at the final position; that stream equals the first one
exactly when the first stream was that lone EOF token (whitespace- or
comment-only sources).  Re-entry is therefore not idempotent on any
source with at least one non-EOF token. -/
theorem C9_amended (s : List Char) :
    tokenizeFrom s (tokenize s).2 =
      ([⟨.END_OF_FILE, [], (tokenize s).2.line, (tokenize s).2.column⟩],
        (tokenize s).2) ∧
    ((tokenizeFrom s (tokenize s).2).1 = (tokenize s).1 ↔
      (tokenize s).1 =
        [⟨.END_OF_FILE, [], (tokenize s).2.line, (tokenize s).2.column⟩]) := by
  have hend : s.length ≤ (tokenize s).2.current := by
    unfold tokenize tokenizeFrom
    exact tokenizeAux_final_atEnd s (s.length + 2) initLexPos
      (by unfold initLexPos; dsimp only; omega)
  have h1 := tokenizeFrom_atEnd s (tokenize s).2 hend
  refine ⟨h1, ?_⟩
  rw [h1]
  exact eq_comm

/-- `contentFrom_chunk` rephrased with an explicit stop position. -/
theorem contentFrom_chunk2 (s : List Char) (pos stop : Nat)
    (h1 : pos ≤ stop) (h2 : stop ≤ s.length)
    (hp : ∀ i, pos ≤ i → i < stop → plainChar (s.getD i nulChar)) :
    contentFrom s pos = extractChars s pos stop ++ contentFrom s stop := by
  have h3 := contentFrom_chunk s (stop - pos) pos (by omega)
    (fun i hi1 hi2 => hp i hi1 (by omega))
  rw [show pos + (stop - pos) = stop by omega] at h3
  exact h3

/-- The heart of claim C5: on a source without string literals, one
`nextToken` step consumes exactly one token's worth of kept content —
the stripper's output at the old cursor is the token's lexeme followed
by the stripper's output at the new cursor, and an EOF token is
produced exactly when no kept content remains. -/
theorem nextToken_content (s : List Char) (hq0 : noQuotes s) :
    ∀ fuel st, s.length - st.current < fuel →
      (((nextToken s fuel st).1.type = .END_OF_FILE) →
        (nextToken s fuel st).1.value = [] ∧
        contentFrom s st.current = []) ∧
      (((nextToken s fuel st).1.type ≠ .END_OF_FILE) →
        contentFrom s st.current =
          (nextToken s fuel st).1.value ++
            contentFrom s (nextToken s fuel st).2.current) := by
  intro fuel
  induction fuel with
  | zero => intro st h; omega
  | succ n ih =>
    intro st h
    obtain ⟨w1, w2, w3⟩ := skipWhitespace_spec s (s.length + 1) st (by omega)
    rw [nextToken]
    dsimp only
    by_cases hend : lexAtEnd s (skipWhitespace s (s.length + 1) st) = true
    · rw [if_pos hend]
      unfold lexAtEnd at hend
      rw [decide_eq_true_eq] at hend
      refine ⟨fun _ => ⟨rfl, ?_⟩, fun hne => absurd rfl hne⟩
      rw [w3]
      exact contentFrom_atEnd s _ hend
    · rw [if_neg hend]
      unfold lexAtEnd at hend
      rw [decide_eq_true_eq] at hend
      have hin : (skipWhitespace s (s.length + 1) st).current < s.length := by omega
      rcases hadv : lexAdvance s (skipWhitespace s (s.length + 1) st) with ⟨c, st1⟩
      have hc : c = s.getD (skipWhitespace s (s.length + 1) st).current nulChar := by
        have h0 := (lexAdvance_current s _ hin).1
        rw [hadv] at h0
        exact h0
      have hst1 : st1.current = (skipWhitespace s (s.length + 1) st).current + 1 := by
        have h0 := (lexAdvance_current s _ hin).2
        rw [hadv] at h0
        exact h0
      have hbk : (backUp st1).current = (skipWhitespace s (s.length + 1) st).current := by
        unfold backUp
        dsimp only
        omega
      have hwg : isWsChar (s.getD (skipWhitespace s (s.length + 1) st).current nulChar) = false := by
        rw [lexPeek_eq_getD, Nat.add_zero] at w2
        exact w2
      dsimp only
      by_cases hdig : isDigitC c = true
      · rw [if_pos hdig]
        obtain ⟨n1, n2, n3, n4, n5⟩ := scanNumber_spec s (backUp st1)
          (by rw [hbk, ← hc]; exact hdig)
        rw [hbk] at n2 n3 n5
        refine ⟨fun hE => absurd (n1.symm.trans hE) (by decide), fun _ => ?_⟩
        rw [w3, n2]
        exact contentFrom_chunk2 s _ _ (by omega) n4 n5
      rw [if_neg hdig]
      by_cases halp : isAlphaC c = true
      · rw [if_pos halp]
        obtain ⟨n1, n2, n3, n4, n5⟩ := scanIdentifier_spec s (backUp st1)
          (by
            rw [hbk, ← hc]
            unfold isAlphaNumericC
            rw [halp]
            rfl)
        rw [hbk] at n2 n3 n5
        refine ⟨fun hE => absurd hE n1, fun _ => ?_⟩
        rw [w3, n2]
        exact contentFrom_chunk2 s _ _ (by omega) n4 n5
      rw [if_neg halp]
      by_cases hop1 : c = '='
      · rw [if_pos hop1]
        have hgd1 : s.getD (skipWhitespace s (s.length + 1) st).current nulChar = '=' := by
          rw [← hc, hop1]
        by_cases hp2 : lexPeek s st1 0 = '='
        · rw [if_pos hp2]
          have hgd2 : s.getD ((skipWhitespace s (s.length + 1) st).current + 1) nulChar = '=' := by
            rw [lexPeek_eq_getD, Nat.add_zero, hst1] at hp2
            exact hp2
          have hin2 : (skipWhitespace s (s.length + 1) st).current + 1 < s.length := by
            by_contra hx
            rw [List.getD_eq_default s nulChar (by omega)] at hgd2
            exact absurd hgd2 (by decide)
          have hpl1 := contentFrom_plain s (skipWhitespace s (s.length + 1) st).current hin (by rw [hgd1]; decide) (by intro hx; rw [hgd1] at hx; exact absurd hx.1 (by decide))
          have hpl2 := contentFrom_plain s ((skipWhitespace s (s.length + 1) st).current + 1) hin2 (by rw [hgd2]; decide) (by intro hx; rw [hgd2] at hx; exact absurd hx.1 (by decide))
          have hadv2 : (lexAdvance s st1).2.current = (skipWhitespace s (s.length + 1) st).current + 2 := by
            rw [(lexAdvance_current s st1 (by omega)).2, hst1]
          refine ⟨fun hE => TokenType.noConfusion hE, fun _ => ?_⟩
          dsimp only
          rw [w3, hpl1, hpl2, hgd1, hgd2, hadv2]
          rfl
        · rw [if_neg hp2]
          have hpl1 := contentFrom_plain s (skipWhitespace s (s.length + 1) st).current hin (by rw [hgd1]; decide) (by intro hx; rw [hgd1] at hx; exact absurd hx.1 (by decide))
          refine ⟨fun hE => TokenType.noConfusion hE, fun _ => ?_⟩
          dsimp only
          rw [w3, hpl1, hgd1, hst1]
          rfl
      rw [if_neg hop1]
      by_cases hop2 : c = '!'
      · rw [if_pos hop2]
        have hgd1 : s.getD (skipWhitespace s (s.length + 1) st).current nulChar = '!' := by
          rw [← hc, hop2]
        by_cases hp2 : lexPeek s st1 0 = '='
        · rw [if_pos hp2]
          have hgd2 : s.getD ((skipWhitespace s (s.length + 1) st).current + 1) nulChar = '=' := by
            rw [lexPeek_eq_getD, Nat.add_zero, hst1] at hp2
            exact hp2
          have hin2 : (skipWhitespace s (s.length + 1) st).current + 1 < s.length := by
            by_contra hx
            rw [List.getD_eq_default s nulChar (by omega)] at hgd2
            exact absurd hgd2 (by decide)
          have hpl1 := contentFrom_plain s (skipWhitespace s (s.length + 1) st).current hin (by rw [hgd1]; decide) (by intro hx; rw [hgd1] at hx; exact absurd hx.1 (by decide))
          have hpl2 := contentFrom_plain s ((skipWhitespace s (s.length + 1) st).current + 1) hin2 (by rw [hgd2]; decide) (by intro hx; rw [hgd2] at hx; exact absurd hx.1 (by decide))
          have hadv2 : (lexAdvance s st1).2.current = (skipWhitespace s (s.length + 1) st).current + 2 := by
            rw [(lexAdvance_current s st1 (by omega)).2, hst1]
          refine ⟨fun hE => TokenType.noConfusion hE, fun _ => ?_⟩
          dsimp only
          rw [w3, hpl1, hpl2, hgd1, hgd2, hadv2]
          rfl
        · rw [if_neg hp2]
          have hpl1 := contentFrom_plain s (skipWhitespace s (s.length + 1) st).current hin (by rw [hgd1]; decide) (by intro hx; rw [hgd1] at hx; exact absurd hx.1 (by decide))
          refine ⟨fun hE => TokenType.noConfusion hE, fun _ => ?_⟩
          dsimp only
          rw [w3, hpl1, hgd1, hst1]
          rfl
      rw [if_neg hop2]
      by_cases hop3 : c = '<'
      · rw [if_pos hop3]
        have hgd1 : s.getD (skipWhitespace s (s.length + 1) st).current nulChar = '<' := by
          rw [← hc, hop3]
        by_cases hp2 : lexPeek s st1 0 = '='
        · rw [if_pos hp2]
          have hgd2 : s.getD ((skipWhitespace s (s.length + 1) st).current + 1) nulChar = '=' := by
            rw [lexPeek_eq_getD, Nat.add_zero, hst1] at hp2
            exact hp2
          have hin2 : (skipWhitespace s (s.length + 1) st).current + 1 < s.length := by
            by_contra hx
            rw [List.getD_eq_default s nulChar (by omega)] at hgd2
            exact absurd hgd2 (by decide)
          have hpl1 := contentFrom_plain s (skipWhitespace s (s.length + 1) st).current hin (by rw [hgd1]; decide) (by intro hx; rw [hgd1] at hx; exact absurd hx.1 (by decide))
          have hpl2 := contentFrom_plain s ((skipWhitespace s (s.length + 1) st).current + 1) hin2 (by rw [hgd2]; decide) (by intro hx; rw [hgd2] at hx; exact absurd hx.1 (by decide))
          have hadv2 : (lexAdvance s st1).2.current = (skipWhitespace s (s.length + 1) st).current + 2 := by
            rw [(lexAdvance_current s st1 (by omega)).2, hst1]
          refine ⟨fun hE => TokenType.noConfusion hE, fun _ => ?_⟩
          dsimp only
          rw [w3, hpl1, hpl2, hgd1, hgd2, hadv2]
          rfl
        · rw [if_neg hp2]
          have hpl1 := contentFrom_plain s (skipWhitespace s (s.length + 1) st).current hin (by rw [hgd1]; decide) (by intro hx; rw [hgd1] at hx; exact absurd hx.1 (by decide))
          refine ⟨fun hE => TokenType.noConfusion hE, fun _ => ?_⟩
          dsimp only
          rw [w3, hpl1, hgd1, hst1]
          rfl
      rw [if_neg hop3]
      by_cases hop4 : c = '>'
      · rw [if_pos hop4]
        have hgd1 : s.getD (skipWhitespace s (s.length + 1) st).current nulChar = '>' := by
          rw [← hc, hop4]
        by_cases hp2 : lexPeek s st1 0 = '='
        · rw [if_pos hp2]
          have hgd2 : s.getD ((skipWhitespace s (s.length + 1) st).current + 1) nulChar = '=' := by
            rw [lexPeek_eq_getD, Nat.add_zero, hst1] at hp2
            exact hp2
          have hin2 : (skipWhitespace s (s.length + 1) st).current + 1 < s.length := by
            by_contra hx
            rw [List.getD_eq_default s nulChar (by omega)] at hgd2
            exact absurd hgd2 (by decide)
          have hpl1 := contentFrom_plain s (skipWhitespace s (s.length + 1) st).current hin (by rw [hgd1]; decide) (by intro hx; rw [hgd1] at hx; exact absurd hx.1 (by decide))
          have hpl2 := contentFrom_plain s ((skipWhitespace s (s.length + 1) st).current + 1) hin2 (by rw [hgd2]; decide) (by intro hx; rw [hgd2] at hx; exact absurd hx.1 (by decide))
          have hadv2 : (lexAdvance s st1).2.current = (skipWhitespace s (s.length + 1) st).current + 2 := by
            rw [(lexAdvance_current s st1 (by omega)).2, hst1]
          refine ⟨fun hE => TokenType.noConfusion hE, fun _ => ?_⟩
          dsimp only
          rw [w3, hpl1, hpl2, hgd1, hgd2, hadv2]
          rfl
        · rw [if_neg hp2]
          have hpl1 := contentFrom_plain s (skipWhitespace s (s.length + 1) st).current hin (by rw [hgd1]; decide) (by intro hx; rw [hgd1] at hx; exact absurd hx.1 (by decide))
          refine ⟨fun hE => TokenType.noConfusion hE, fun _ => ?_⟩
          dsimp only
          rw [w3, hpl1, hgd1, hst1]
          rfl
      rw [if_neg hop4]
      by_cases hop5 : c = '&'
      · rw [if_pos hop5]
        have hgd1 : s.getD (skipWhitespace s (s.length + 1) st).current nulChar = '&' := by
          rw [← hc, hop5]
        by_cases hp2 : lexPeek s st1 0 = '&'
        · rw [if_pos hp2]
          have hgd2 : s.getD ((skipWhitespace s (s.length + 1) st).current + 1) nulChar = '&' := by
            rw [lexPeek_eq_getD, Nat.add_zero, hst1] at hp2
            exact hp2
          have hin2 : (skipWhitespace s (s.length + 1) st).current + 1 < s.length := by
            by_contra hx
            rw [List.getD_eq_default s nulChar (by omega)] at hgd2
            exact absurd hgd2 (by decide)
          have hpl1 := contentFrom_plain s (skipWhitespace s (s.length + 1) st).current hin (by rw [hgd1]; decide) (by intro hx; rw [hgd1] at hx; exact absurd hx.1 (by decide))
          have hpl2 := contentFrom_plain s ((skipWhitespace s (s.length + 1) st).current + 1) hin2 (by rw [hgd2]; decide) (by intro hx; rw [hgd2] at hx; exact absurd hx.1 (by decide))
          have hadv2 : (lexAdvance s st1).2.current = (skipWhitespace s (s.length + 1) st).current + 2 := by
            rw [(lexAdvance_current s st1 (by omega)).2, hst1]
          refine ⟨fun hE => TokenType.noConfusion hE, fun _ => ?_⟩
          dsimp only
          rw [w3, hpl1, hpl2, hgd1, hgd2, hadv2]
          rfl
        · rw [if_neg hp2]
          have hpl1 := contentFrom_plain s (skipWhitespace s (s.length + 1) st).current hin (by rw [hgd1]; decide) (by intro hx; rw [hgd1] at hx; exact absurd hx.1 (by decide))
          refine ⟨fun hE => TokenType.noConfusion hE, fun _ => ?_⟩
          dsimp only
          rw [w3, hpl1, hgd1, hst1]
          first
          | rfl
          | (rw [hop5]; rfl)
      rw [if_neg hop5]
      by_cases hop6 : c = '|'
      · rw [if_pos hop6]
        have hgd1 : s.getD (skipWhitespace s (s.length + 1) st).current nulChar = '|' := by
          rw [← hc, hop6]
        by_cases hp2 : lexPeek s st1 0 = '|'
        · rw [if_pos hp2]
          have hgd2 : s.getD ((skipWhitespace s (s.length + 1) st).current + 1) nulChar = '|' := by
            rw [lexPeek_eq_getD, Nat.add_zero, hst1] at hp2
            exact hp2
          have hin2 : (skipWhitespace s (s.length + 1) st).current + 1 < s.length := by
            by_contra hx
            rw [List.getD_eq_default s nulChar (by omega)] at hgd2
            exact absurd hgd2 (by decide)
          have hpl1 := contentFrom_plain s (skipWhitespace s (s.length + 1) st).current hin (by rw [hgd1]; decide) (by intro hx; rw [hgd1] at hx; exact absurd hx.1 (by decide))
          have hpl2 := contentFrom_plain s ((skipWhitespace s (s.length + 1) st).current + 1) hin2 (by rw [hgd2]; decide) (by intro hx; rw [hgd2] at hx; exact absurd hx.1 (by decide))
          have hadv2 : (lexAdvance s st1).2.current = (skipWhitespace s (s.length + 1) st).current + 2 := by
            rw [(lexAdvance_current s st1 (by omega)).2, hst1]
          refine ⟨fun hE => TokenType.noConfusion hE, fun _ => ?_⟩
          dsimp only
          rw [w3, hpl1, hpl2, hgd1, hgd2, hadv2]
          rfl
        · rw [if_neg hp2]
          have hpl1 := contentFrom_plain s (skipWhitespace s (s.length + 1) st).current hin (by rw [hgd1]; decide) (by intro hx; rw [hgd1] at hx; exact absurd hx.1 (by decide))
          refine ⟨fun hE => TokenType.noConfusion hE, fun _ => ?_⟩
          dsimp only
          rw [w3, hpl1, hgd1, hst1]
          first
          | rfl
          | (rw [hop6]; rfl)
      rw [if_neg hop6]
      by_cases hsl : c = '/'
      · rw [if_pos hsl]
        have hgd1 : s.getD (skipWhitespace s (s.length + 1) st).current nulChar = '/' := by
          rw [← hc, hsl]
        by_cases hl : lexPeek s st1 0 = '/'
        · rw [if_pos hl]
          have hgd2 : s.getD ((skipWhitespace s (s.length + 1) st).current + 1) nulChar = '/' := by
            rw [lexPeek_eq_getD, Nat.add_zero, hst1] at hl
            exact hl
          have hin2 : (skipWhitespace s (s.length + 1) st).current + 1 < s.length := by
            by_contra hx
            rw [List.getD_eq_default s nulChar (by omega)] at hgd2
            exact absurd hgd2 (by decide)
          -- the lexer's comment skip and the stripper's newline scan
          -- land at the same position
          have hskip : (skipLineComment s (s.length + 1) st1).current =
              skipToNewline s (s.length + 1) ((skipWhitespace s (s.length + 1) st).current + 2) := by
            rw [skipLineComment_eq s (s.length + 1) st1, hst1]
            rw [show s.length + 1 = s.length + 1 from rfl]
            rw [skipToNewline]
            rw [if_pos ⟨hin2, by rw [hgd2]; decide⟩]
            exact skipToNewline_congr s (s.length) (s.length + 1)
              ((skipWhitespace s (s.length + 1) st).current + 2) (by omega) (by omega)
          have hcont := contentFrom_lineComment s (skipWhitespace s (s.length + 1) st).current hin hgd1 hgd2
          have hge := skipToNewline_ge s (s.length + 1) ((skipWhitespace s (s.length + 1) st).current + 2)
          obtain ⟨r1, r2⟩ := ih (skipLineComment s (s.length + 1) st1)
            (by rw [hskip]; omega)
          constructor
          · intro hE
            obtain ⟨e1, e2⟩ := r1 hE
            refine ⟨e1, ?_⟩
            rw [w3, hcont, ← hskip]
            exact e2
          · intro hne
            have e2 := r2 hne
            rw [w3, hcont, ← hskip]
            exact e2
        · rw [if_neg hl]
          by_cases hb : lexPeek s st1 0 = '*'
          · rw [if_pos hb]
            have hgd2 : s.getD ((skipWhitespace s (s.length + 1) st).current + 1) nulChar = '*' := by
              rw [lexPeek_eq_getD, Nat.add_zero, hst1] at hb
              exact hb
            have hin2 : (skipWhitespace s (s.length + 1) st).current + 1 < s.length := by
              by_contra hx
              rw [List.getD_eq_default s nulChar (by omega)] at hgd2
              exact absurd hgd2 (by decide)
            have hadv2 : (lexAdvance s st1).2.current = (skipWhitespace s (s.length + 1) st).current + 2 := by
              rw [(lexAdvance_current s st1 (by omega)).2, hst1]
            have hskip : (skipBlockComment s (s.length + 1)
                (lexAdvance s st1).2).current =
                skipToBlockEnd s (s.length + 1) ((skipWhitespace s (s.length + 1) st).current + 2) := by
              rw [skipBlockComment_eq s (s.length + 1) (lexAdvance s st1).2,
                hadv2]
            have hcont := contentFrom_blockComment s (skipWhitespace s (s.length + 1) st).current hin hgd1 hgd2
            have hge := skipToBlockEnd_ge s (s.length + 1) ((skipWhitespace s (s.length + 1) st).current + 2)
            obtain ⟨r1, r2⟩ := ih (skipBlockComment s (s.length + 1)
              (lexAdvance s st1).2) (by rw [hskip]; omega)
            constructor
            · intro hE
              obtain ⟨e1, e2⟩ := r1 hE
              refine ⟨e1, ?_⟩
              rw [w3, hcont, ← hskip]
              exact e2
            · intro hne
              have e2 := r2 hne
              rw [w3, hcont, ← hskip]
              exact e2
          · rw [if_neg hb]
            -- a lone `/` is the DIVIDE token and is kept content
            have hnx1 : s.getD ((skipWhitespace s (s.length + 1) st).current + 1) nulChar ≠ '/' := by
              rw [lexPeek_eq_getD, Nat.add_zero, hst1] at hl
              exact hl
            have hnx2 : s.getD ((skipWhitespace s (s.length + 1) st).current + 1) nulChar ≠ '*' := by
              rw [lexPeek_eq_getD, Nat.add_zero, hst1] at hb
              exact hb
            have hpl1 := contentFrom_plain s (skipWhitespace s (s.length + 1) st).current hin
              (by rw [hgd1]; decide)
              (by
                intro hx
                rcases hx.2 with hx2 | hx2
                · exact hnx1 hx2
                · exact hnx2 hx2)
            refine ⟨fun hE => TokenType.noConfusion hE, fun _ => ?_⟩
            dsimp only
            rw [w3, hpl1, hgd1, hst1]
            rfl
      rw [if_neg hsl]
      by_cases hop7 : c = '+'
      · rw [if_pos hop7]
        have hgd1 : s.getD (skipWhitespace s (s.length + 1) st).current nulChar = '+' := by
          rw [← hc, hop7]
        have hpl1 := contentFrom_plain s (skipWhitespace s (s.length + 1) st).current hin (by rw [hgd1]; decide) (by intro hx; rw [hgd1] at hx; exact absurd hx.1 (by decide))
        refine ⟨fun hE => TokenType.noConfusion hE, fun _ => ?_⟩
        dsimp only
        rw [w3, hpl1, hgd1, hst1]
        rfl
      rw [if_neg hop7]
      by_cases hop8 : c = '-'
      · rw [if_pos hop8]
        have hgd1 : s.getD (skipWhitespace s (s.length + 1) st).current nulChar = '-' := by
          rw [← hc, hop8]
        have hpl1 := contentFrom_plain s (skipWhitespace s (s.length + 1) st).current hin (by rw [hgd1]; decide) (by intro hx; rw [hgd1] at hx; exact absurd hx.1 (by decide))
        refine ⟨fun hE => TokenType.noConfusion hE, fun _ => ?_⟩
        dsimp only
        rw [w3, hpl1, hgd1, hst1]
        rfl
      rw [if_neg hop8]
      by_cases hop9 : c = '*'
      · rw [if_pos hop9]
        have hgd1 : s.getD (skipWhitespace s (s.length + 1) st).current nulChar = '*' := by
          rw [← hc, hop9]
        have hpl1 := contentFrom_plain s (skipWhitespace s (s.length + 1) st).current hin (by rw [hgd1]; decide) (by intro hx; rw [hgd1] at hx; exact absurd hx.1 (by decide))
        refine ⟨fun hE => TokenType.noConfusion hE, fun _ => ?_⟩
        dsimp only
        rw [w3, hpl1, hgd1, hst1]
        rfl
      rw [if_neg hop9]
      by_cases hop10 : c = '%'
      · rw [if_pos hop10]
        have hgd1 : s.getD (skipWhitespace s (s.length + 1) st).current nulChar = '%' := by
          rw [← hc, hop10]
        have hpl1 := contentFrom_plain s (skipWhitespace s (s.length + 1) st).current hin (by rw [hgd1]; decide) (by intro hx; rw [hgd1] at hx; exact absurd hx.1 (by decide))
        refine ⟨fun hE => TokenType.noConfusion hE, fun _ => ?_⟩
        dsimp only
        rw [w3, hpl1, hgd1, hst1]
        rfl
      rw [if_neg hop10]
      by_cases hop11 : c = ';'
      · rw [if_pos hop11]
        have hgd1 : s.getD (skipWhitespace s (s.length + 1) st).current nulChar = ';' := by
          rw [← hc, hop11]
        have hpl1 := contentFrom_plain s (skipWhitespace s (s.length + 1) st).current hin (by rw [hgd1]; decide) (by intro hx; rw [hgd1] at hx; exact absurd hx.1 (by decide))
        refine ⟨fun hE => TokenType.noConfusion hE, fun _ => ?_⟩
        dsimp only
        rw [w3, hpl1, hgd1, hst1]
        rfl
      rw [if_neg hop11]
      by_cases hop12 : c = ','
      · rw [if_pos hop12]
        have hgd1 : s.getD (skipWhitespace s (s.length + 1) st).current nulChar = ',' := by
          rw [← hc, hop12]
        have hpl1 := contentFrom_plain s (skipWhitespace s (s.length + 1) st).current hin (by rw [hgd1]; decide) (by intro hx; rw [hgd1] at hx; exact absurd hx.1 (by decide))
        refine ⟨fun hE => TokenType.noConfusion hE, fun _ => ?_⟩
        dsimp only
        rw [w3, hpl1, hgd1, hst1]
        rfl
      rw [if_neg hop12]
      by_cases hop13 : c = '.'
      · rw [if_pos hop13]
        have hgd1 : s.getD (skipWhitespace s (s.length + 1) st).current nulChar = '.' := by
          rw [← hc, hop13]
        have hpl1 := contentFrom_plain s (skipWhitespace s (s.length + 1) st).current hin (by rw [hgd1]; decide) (by intro hx; rw [hgd1] at hx; exact absurd hx.1 (by decide))
        refine ⟨fun hE => TokenType.noConfusion hE, fun _ => ?_⟩
        dsimp only
        rw [w3, hpl1, hgd1, hst1]
        rfl
      rw [if_neg hop13]
      by_cases hop14 : c = '('
      · rw [if_pos hop14]
        have hgd1 : s.getD (skipWhitespace s (s.length + 1) st).current nulChar = '(' := by
          rw [← hc, hop14]
        have hpl1 := contentFrom_plain s (skipWhitespace s (s.length + 1) st).current hin (by rw [hgd1]; decide) (by intro hx; rw [hgd1] at hx; exact absurd hx.1 (by decide))
        refine ⟨fun hE => TokenType.noConfusion hE, fun _ => ?_⟩
        dsimp only
        rw [w3, hpl1, hgd1, hst1]
        rfl
      rw [if_neg hop14]
      by_cases hop15 : c = ')'
      · rw [if_pos hop15]
        have hgd1 : s.getD (skipWhitespace s (s.length + 1) st).current nulChar = ')' := by
          rw [← hc, hop15]
        have hpl1 := contentFrom_plain s (skipWhitespace s (s.length + 1) st).current hin (by rw [hgd1]; decide) (by intro hx; rw [hgd1] at hx; exact absurd hx.1 (by decide))
        refine ⟨fun hE => TokenType.noConfusion hE, fun _ => ?_⟩
        dsimp only
        rw [w3, hpl1, hgd1, hst1]
        rfl
      rw [if_neg hop15]
      by_cases hop16 : c = '\x7b'
      · rw [if_pos hop16]
        have hgd1 : s.getD (skipWhitespace s (s.length + 1) st).current nulChar = '\x7b' := by
          rw [← hc, hop16]
        have hpl1 := contentFrom_plain s (skipWhitespace s (s.length + 1) st).current hin (by rw [hgd1]; decide) (by intro hx; rw [hgd1] at hx; exact absurd hx.1 (by decide))
        refine ⟨fun hE => TokenType.noConfusion hE, fun _ => ?_⟩
        dsimp only
        rw [w3, hpl1, hgd1, hst1]
        first
        | rfl
        | (rw [hop16]; rfl)
      rw [if_neg hop16]
      by_cases hop17 : c = '\x7d'
      · rw [if_pos hop17]
        have hgd1 : s.getD (skipWhitespace s (s.length + 1) st).current nulChar = '\x7d' := by
          rw [← hc, hop17]
        have hpl1 := contentFrom_plain s (skipWhitespace s (s.length + 1) st).current hin (by rw [hgd1]; decide) (by intro hx; rw [hgd1] at hx; exact absurd hx.1 (by decide))
        refine ⟨fun hE => TokenType.noConfusion hE, fun _ => ?_⟩
        dsimp only
        rw [w3, hpl1, hgd1, hst1]
        first
        | rfl
        | (rw [hop17]; rfl)
      rw [if_neg hop17]
      by_cases hop18 : c = '['
      · rw [if_pos hop18]
        have hgd1 : s.getD (skipWhitespace s (s.length + 1) st).current nulChar = '[' := by
          rw [← hc, hop18]
        have hpl1 := contentFrom_plain s (skipWhitespace s (s.length + 1) st).current hin (by rw [hgd1]; decide) (by intro hx; rw [hgd1] at hx; exact absurd hx.1 (by decide))
        refine ⟨fun hE => TokenType.noConfusion hE, fun _ => ?_⟩
        dsimp only
        rw [w3, hpl1, hgd1, hst1]
        rfl
      rw [if_neg hop18]
      by_cases hop19 : c = ']'
      · rw [if_pos hop19]
        have hgd1 : s.getD (skipWhitespace s (s.length + 1) st).current nulChar = ']' := by
          rw [← hc, hop19]
        have hpl1 := contentFrom_plain s (skipWhitespace s (s.length + 1) st).current hin (by rw [hgd1]; decide) (by intro hx; rw [hgd1] at hx; exact absurd hx.1 (by decide))
        refine ⟨fun hE => TokenType.noConfusion hE, fun _ => ?_⟩
        dsimp only
        rw [w3, hpl1, hgd1, hst1]
        rfl
      rw [if_neg hop19]
      by_cases hs : c = quoteD ∨ c = quoteS
      · exfalso
        have hmem : s.getD (skipWhitespace s (s.length + 1) st).current nulChar ∈ s := by
          rw [List.getD_eq_getElem s nulChar hin]
          exact List.getElem_mem hin
        obtain ⟨hq1, hq2⟩ := hq0 _ hmem
        rcases hs with hqq | hqq
        · exact hq1 (hc ▸ hqq)
        · exact hq2 (hc ▸ hqq)
      · rw [if_neg hs]
        have hpl1 := contentFrom_plain s (skipWhitespace s (s.length + 1) st).current hin hwg
          (by
            intro hx
            exact hsl (hc.trans hx.1))
        refine ⟨fun hE => TokenType.noConfusion hE, fun _ => ?_⟩
        dsimp only
        rw [w3, hpl1, ← hc, hst1]
        rfl

/-- Concatenating the lexemes of the whole token stream of a
quote-free source reproduces its kept content, from any starting
cursor. -/
theorem tokenizeAux_content (s : List Char) (hq : noQuotes s) :
    ∀ fuel st, s.length - st.current < fuel →
      concatLexemes (tokenizeAux s fuel st).1 =
        contentFrom s st.current := by
  intro fuel
  induction fuel with
  | zero => intro st h; omega
  | succ n ih =>
    intro st h
    obtain ⟨p1, p2, p3⟩ := nextToken_progress s (s.length + 1) st (by omega)
    obtain ⟨c1, c2⟩ := nextToken_content s hq (s.length + 1) st (by omega)
    rw [tokenizeAux]
    simp only [lexNext] at *
    rcases hnt : nextToken s (s.length + 1) st with ⟨tok, st1⟩
    rw [hnt] at p1 p2 p3 c1 c2
    dsimp only at p1 p2 p3 c1 c2 ⊢
    by_cases he : tok.type = .END_OF_FILE
    · rw [if_pos he]
      obtain ⟨e1, e2⟩ := c1 he
      simp [concatLexemes, e1, e2]
    · rw [if_neg he]
      obtain ⟨q1, q2⟩ := p3 he
      have hrec := ih st1 (by omega)
      simp only [concatLexemes, List.foldr_cons] at hrec ⊢
      rw [hrec, c2 he]

/-! ## Claim C5 -/

/-- C5 counterexample: for the source `"a"` the string token's lexeme
is the decoded body `a` without the quote delimiters, so the
concatenation of lexemes (`a`) differs from the source's
non-whitespace, non-comment content (`"a"`, three characters). -/
theorem C5_counterexample :
    concatLexemes (tokenize quotedSrc).1 = ['a'] ∧
    nonCommentContent quotedSrc = quotedSrc ∧
    decide (concatLexemes (tokenize quotedSrc).1 =
      nonCommentContent quotedSrc) = false :=
  ⟨rfl, rfl, rfl⟩

/-- C5 amended: for every source containing no string-literal
delimiters (`"` or `'`), concatenating the lexemes of the token
stream in order — whitespace and comments having been discarded by
the lexer — reproduces exactly the source's non-whitespace,
non-comment content.  String literals break the property because
their lexemes are stored decoded: the delimiters are dropped and
escape sequences are replaced by the characters they denote. -/
theorem C5_amended (s : List Char) (hq : noQuotes s) :
    concatLexemes (tokenize s).1 = nonCommentContent s := by
  have h := tokenizeAux_content s hq (s.length + 2) initLexPos
    (by unfold initLexPos; dsimp only; omega)
  unfold tokenize tokenizeFrom
  exact h

/-- Witness for C5 on a concrete quote-free source with whitespace
and a line comment. -/
theorem C5_amended_witness :
    concatLexemes (tokenize (String.toList "let x = 1.5; // c")).1 =
      nonCommentContent (String.toList "let x = 1.5; // c") ∧
    concatLexemes (tokenize (String.toList "let x = 1.5; // c")).1 =
      String.toList "letx=1.5;" :=
  ⟨C5_amended (String.toList "let x = 1.5; // c") (by decide), rfl⟩

end Twine
